import Mathlib

/-!
MB-SOS RAM-disk filesystem (`kernel/kernel.c`)

A shallow embedding of the block allocator, the allocation table, the flat
file directory and the `create_file` / `read_file` operations of
`kernel/kernel.c`, followed by theorems about them.

Conventions of the embedding.

* A byte (`char`) is a `Nat`; the terminator `'\0'` is `0`.
* A `char *` argument is the list of bytes found at the pointer.  Every C
  routine stops at the first `0`; the end of the list also reads as `0`, so a
  list without a `0` is the C string with exactly these characters.
* `int` values (block numbers, allocation-table entries) are `Int`; the
  sentinel for both "free" and "end of chain" is `-1`, as in the source.
* The global arrays `disk`, `fat` and `files` are lists; their declared sizes
  (`DISK_SIZE`, `NUM_BLOCKS`, `MAX_FILES`) are recorded by `FS.WF`.
* An access outside an array, and signed overflow, are undefined behaviour in
  C: the embedding returns `Res.fault`.  A loop that has not finished when
  the fuel is spent returns `Res.timeout`.
* Text passed to `kprint` is appended to `FS.screen`.
-/

namespace MBSOS

/-! ## Constants (`kernel.c`, lines 19-22) -/

/-- Size of the RAM disk in bytes. -/
def DISK_SIZE : Nat := 1024

/-- Block size in bytes. -/
def BLOCK_SIZE : Nat := 32

/-- Number of blocks of the RAM disk. -/
def NUM_BLOCKS : Nat := DISK_SIZE / BLOCK_SIZE

/-- Maximum number of files. -/
def MAX_FILES : Nat := 10

/-- Largest value of a C `int` (32 bits). -/
def INT_MAX : Nat := 2 ^ 31 - 1

/-! ## Results -/

/-- Outcome of running a routine: it returns, it performs an undefined
access, or it is still looping when the fuel is spent. -/
inductive Res (α : Type) where
  | ok (a : α)
  | fault
  | timeout
  deriving DecidableEq, Repr

/-! ## Strings -/

/-- Bytes of a string literal. -/
def str (s : String) : List Nat := s.data.map Char.toNat

/-- The characters of the C string stored at a pointer: the bytes before the
first terminator. -/
def cstr : List Nat → List Nat
  | [] => []
  | c :: cs => if c = 0 then [] else c :: cstr cs

/-- Modelled from the spec: `strlen` of `libc/string.h` (not among the
sources), the "length" text utility: the number of characters before the
terminator. -/
def strlen (s : List Nat) : Nat := (cstr s).length

/-- Modelled from the spec: `strcmp` of `libc/string.h` (not among the
sources), the "compare" text utility: walks both strings and returns the
difference of the first pair of bytes that differ, `0` when both reach the
terminator together. -/
def strcmp : List Nat → List Nat → Int
  | [], [] => 0
  | [], b :: _ => - (b : Int)
  | a :: _, [] => (a : Int)
  | a :: as, b :: bs =>
    if a = b then (if a = 0 then 0 else strcmp as bs) else (a : Int) - (b : Int)

/-- The `n` bytes that `strncpy(dest, src, n)` stores at `dest`
(`kernel.c`, lines 32-41): the characters of `src` up to its terminator, at
most `n` of them, then `'\0'` up to `n` bytes. -/
def strncpy : List Nat → Nat → List Nat
  | _, 0 => []
  | [], n + 1 => List.replicate (n + 1) 0
  | c :: cs, n + 1 => if c = 0 then List.replicate (n + 1) 0 else c :: strncpy cs n

/-- The array `dest` after `strcpy(dest, src)` (`kernel.c`, lines 43-49): the
characters of `src` and its terminator replace the first bytes of `dest`.
The caller checks that they fit. -/
def strcpy (dest src : List Nat) : List Nat :=
  cstr src ++ 0 :: dest.drop (strlen src + 1)

/-! ## Messages -/

def MSG_INIT : List Nat := str "Filesystem initialized!\n"
def MSG_FILE_LIMIT : List Nat := str "Error: File limit reached!\n"
def MSG_NO_SPACE : List Nat := str "Error: Not enough space on disk!\n"
def MSG_CREATED : List Nat := str "File created successfully!\n"
def MSG_CONTENTS : List Nat := str "Contents of file: "
def MSG_NEWLINE : List Nat := str "\n"
def MSG_NOT_FOUND : List Nat := str "Error: File not found!\n"

/-! ## Data model (`kernel.c`, lines 96-105) -/

/-- A directory entry: `typedef struct { char name[16]; int start_block; int size; } File`. -/
structure File where
  name : List Nat
  start_block : Int
  size : Int
  deriving DecidableEq, Repr

/-- The globals `disk`, `fat`, `files`, `file_count`, and the text printed so
far. -/
structure FS where
  disk : List Nat
  fat : List Int
  files : List File
  file_count : Nat
  screen : List Nat
  deriving DecidableEq, Repr

/-- The arrays have their declared sizes. -/
def FS.WF (s : FS) : Prop :=
  s.disk.length = DISK_SIZE ∧ s.fat.length = NUM_BLOCKS ∧ s.files.length = MAX_FILES

instance (s : FS) : Decidable s.WF := by unfold FS.WF; infer_instance

/-- Modelled from the spec: `kprint` of `drivers/screen.h` (not among the
sources), the "print a line of text" collaborator: the characters of the C
string are appended to the screen. -/
def kprint (s : FS) (msg : List Nat) : FS :=
  { s with screen := s.screen ++ cstr msg }

/-- The zeroed directory entry left by `memset(files, 0, sizeof(files))`. -/
def File.zero : File := ⟨List.replicate 16 0, 0, 0⟩

/-- The routine `initialize_filesystem` (`kernel.c`, lines 108-115): a fresh zeroed disk,
every allocation-table entry `-1`, a zeroed directory, `file_count = 0`. -/
def initialize_filesystem (s : FS) : FS :=
  kprint
    { disk := List.replicate DISK_SIZE 0
      fat := List.replicate NUM_BLOCKS (-1)
      files := List.replicate MAX_FILES File.zero
      file_count := 0
      screen := s.screen }
    MSG_INIT

/-- The state before anything ran: nothing on the screen. -/
def FS.boot : FS := ⟨[], [], [], 0, []⟩

/-! ## Allocation table (`kernel.c`, lines 118-123) -/

/-- The loop of `find_free_block` with `n` indices left to inspect, the next
one being `i`. -/
def find_free_block_from (fat : List Int) : Nat → Nat → Int
  | 0, _ => -1
  | n + 1, i => if fat[i]? = some (-1) then (i : Int) else find_free_block_from fat n (i + 1)

/-- The routine `find_free_block`: the first `i < NUM_BLOCKS` with `fat[i] == -1`,
else `-1`.  It reads the allocation table and writes nothing. -/
def find_free_block (fat : List Int) : Int :=
  find_free_block_from fat NUM_BLOCKS 0

/-! ## Block store -/

/-- The disk after `strncpy(&disk[offset], src, BLOCK_SIZE)`. -/
def write_block (disk : List Nat) (offset : Nat) (src : List Nat) : List Nat :=
  disk.take offset ++ strncpy src BLOCK_SIZE ++ disk.drop (offset + BLOCK_SIZE)

/-! ## File manager: create (`kernel.c`, lines 126-159) -/

/-- The variables that the allocation loop of `create_file` updates. -/
structure Alloc where
  fat : List Int
  disk : List Nat
  first_block : Int
  prev_block : Int
  deriving DecidableEq, Repr

/-- How the allocation loop ends: all iterations ran, or `find_free_block`
returned `-1` (the early `return`). -/
inductive LoopRes where
  | done (a : Alloc)
  | noSpace (a : Alloc)
  deriving DecidableEq, Repr

/-- The loop `for (i = 0; i < blocks_needed; i++)` of `create_file` with `n`
iterations left, the next one being iteration `i`.  The indices `block` and
`prev_block` used here are results of `find_free_block`. -/
def create_loop (data : List Nat) : Nat → Nat → Alloc → LoopRes
  | 0, _, a => .done a
  | n + 1, i, a =>
    let block := find_free_block a.fat
    if block = -1 then .noSpace a
    else
      let first_block := if a.first_block = -1 then block else a.first_block
      let fat := if a.prev_block ≠ -1 then a.fat.set a.prev_block.toNat block else a.fat
      let disk := write_block a.disk (block.toNat * BLOCK_SIZE) (data.drop (i * BLOCK_SIZE))
      create_loop data n (i + 1) ⟨fat, disk, first_block, block⟩

/-- The routine `create_file(name, data)`.  The order of the source is kept: the
directory limit, `strlen` and `blocks_needed`, the allocation loop with its
early return, `fat[prev_block] = -1`, `strcpy` into `files[file_count].name`,
the two fields, `file_count++`, the success message. -/
def create_file (s : FS) (name data : List Nat) : Res FS :=
  if s.file_count ≥ MAX_FILES then .ok (kprint s MSG_FILE_LIMIT)
  else
    let size := strlen data
    if size + BLOCK_SIZE - 1 > INT_MAX then .fault
    else
      let blocks_needed := (size + BLOCK_SIZE - 1) / BLOCK_SIZE
      match create_loop data blocks_needed 0 ⟨s.fat, s.disk, -1, -1⟩ with
      | .noSpace a => .ok (kprint { s with fat := a.fat, disk := a.disk } MSG_NO_SPACE)
      | .done a =>
        if 0 ≤ a.prev_block ∧ a.prev_block < NUM_BLOCKS then
          match s.files[s.file_count]? with
          | none => .fault
          | some f =>
            if strlen name < 16 then
              .ok (kprint
                { disk := a.disk
                  fat := a.fat.set a.prev_block.toNat (-1)
                  files := s.files.set s.file_count
                    ⟨strcpy f.name name, a.first_block, (size : Int)⟩
                  file_count := s.file_count + 1
                  screen := s.screen }
                MSG_CREATED)
            else .fault
        else .fault

/-! ## File manager: read (`kernel.c`, lines 162-178) -/

/-- The loop `while (block != -1)` of `read_file`: each block is copied into a
zeroed buffer of `BLOCK_SIZE + 1` bytes and printed, then the walk moves to
`fat[block]`.  `fuel` bounds the number of iterations. -/
def read_chain (fat : List Int) (disk : List Nat) : Nat → Int → FS → Res FS
  | fuel, block, s =>
    if block = -1 then .ok s
    else
      match fuel with
      | 0 => .timeout
      | fuel + 1 =>
        if 0 ≤ block ∧ block < NUM_BLOCKS then
          match fat[block.toNat]? with
          | none => .fault
          | some next =>
            let buffer := strncpy (disk.drop (block.toNat * BLOCK_SIZE)) BLOCK_SIZE ++ [0]
            read_chain fat disk fuel next (kprint s buffer)
        else .fault

/-- The body of the `if` of `read_file` for the matching entry `f`
(`kernel.c`, lines 165-174): the header, the blocks of the chain that starts
at `f.start_block`, a newline. -/
def read_entry (fuel : Nat) (s : FS) (f : File) : Res FS :=
  match read_chain s.fat s.disk fuel f.start_block (kprint s MSG_CONTENTS) with
  | .ok s1 => .ok (kprint s1 MSG_NEWLINE)
  | .fault => .fault
  | .timeout => .timeout

/-- The loop `for (i = 0; i < file_count; i++)` of `read_file` with `n`
entries left, the next one being `files[i]`. -/
def read_file_from (fuel : Nat) (s : FS) (name : List Nat) : Nat → Nat → Res FS
  | 0, _ => .ok (kprint s MSG_NOT_FOUND)
  | n + 1, i =>
    match s.files[i]? with
    | none => .fault
    | some f =>
      if strcmp f.name name = 0 then read_entry fuel s f
      else read_file_from fuel s name n (i + 1)

/-- The routine `read_file(name)`. -/
def read_file (fuel : Nat) (s : FS) (name : List Nat) : Res FS :=
  read_file_from fuel s name s.file_count 0

/-! ## Vocabulary of the properties -/

/-- The blocks met when following the allocation table from `block` to the
end marker `-1`, in order; `none` when the walk leaves the table or does not
reach the marker within `fuel` steps. -/
def chain (fat : List Int) : Nat → Int → Option (List Nat)
  | fuel, block =>
    if block = -1 then some []
    else
      match fuel with
      | 0 => none
      | fuel + 1 =>
        if 0 ≤ block ∧ block < NUM_BLOCKS then
          match fat[block.toNat]? with
          | none => none
          | some next => (chain fat fuel next).map (fun bs => block.toNat :: bs)
        else none

/-- The text held by block `b`: its bytes up to the first terminator. -/
def block_text (disk : List Nat) (b : Nat) : List Nat :=
  cstr ((disk.drop (b * BLOCK_SIZE)).take BLOCK_SIZE)

/-- The text held by the blocks `bs`, one after the other. -/
def chain_text (disk : List Nat) : List Nat → List Nat
  | [] => []
  | b :: bs => block_text disk b ++ chain_text disk bs

/-- Number of allocation-table entries marked free (`-1`). -/
def free_count (fat : List Int) : Nat := fat.count (-1)

/-- The value `blocks_needed` of `create_file`: `ceil(len / BLOCK_SIZE)`. -/
def blocks_needed (len : Nat) : Nat := (len + BLOCK_SIZE - 1) / BLOCK_SIZE

/-- The states that `initialize_filesystem` followed by calls of
`create_file` can produce. -/
inductive Reachable : FS → Prop where
  | init (s0 : FS) : Reachable (initialize_filesystem s0)
  | create (s s1 : FS) (name data : List Nat) :
      Reachable s → create_file s name data = .ok s1 → Reachable s1

/-- Runs `create_file` for each `(name, data)` of a list, in order. -/
def create_all : FS → List (List Nat × List Nat) → Res FS
  | s, [] => .ok s
  | s, (name, data) :: rest =>
    match create_file s name data with
    | .ok s1 => create_all s1 rest
    | .fault => .fault
    | .timeout => .timeout

/-- Runs `create_file` for each `(name, data)` of a list, in order, as long as
every call prints the success message; `none` as soon as one does not. -/
def create_all_ok : FS → List (List Nat × List Nat) → Option FS
  | s, [] => some s
  | s, (name, data) :: rest =>
    match create_file s name data with
    | .ok s1 => if s1.screen = s.screen ++ MSG_CREATED then create_all_ok s1 rest else none
    | .fault => none
    | .timeout => none

/-- The filesystem right after `initialize_filesystem` at boot. -/
def fresh : FS := initialize_filesystem FS.boot

/-- The state that a run returned (the boot state when it did not return);
used to name concrete states. -/
def Res.get : Res FS → FS
  | .ok s => s
  | .fault => FS.boot
  | .timeout => FS.boot

/-- A 40-byte payload: one full block and 8 bytes. -/
def payload40 : List Nat := str "0123456789abcdefghijklmnopqrstuvwxyzABCD"

/-- A payload of 1025 bytes: 33 blocks. -/
def payload1025 : List Nat := List.replicate 1025 65

/-- A payload of 2049 bytes: 65 blocks. -/
def payload2049 : List Nat := List.replicate 2049 65

/-- Ten creations of a one-byte file. -/
def ops10 : List (List Nat × List Nat) := List.replicate 10 (str "f", str "x")

/-- Nine creations of a one-byte file. -/
def ops9 : List (List Nat × List Nat) := List.replicate 9 (str "f", str "x")

/-! ## Command dispatcher (`kernel.c`, lines 8-16, 51-94, 181-213) -/

def MSG_STOP : List Nat := str "Stopping the CPU. Bye!\n"
def MSG_PAGE : List Nat := str "Page: "
def MSG_PHYS : List Nat := str ", physical address: "
def MSG_USAGE : List Nat := str "Usage: CREATE <filename> <content>\n"
def MSG_UNKNOWN : List Nat := str "Unknown command. Available: END, PAGE, CREATE, READ\n"
def MSG_PROMPT : List Nat := str "> "

/-- The byte at a pointer; past the end of the list it is the terminator. -/
def peek (p : List Nat) : Nat := p.headD 0

/-- Whether `strchr(str, c)` is not `NULL` (`kernel.c`, lines 8-16): the walk
over `str` stops at its terminator, so the terminator itself is never found. -/
def strchr : List Nat → Nat → Bool
  | [], _ => false
  | d :: ds, c => if d = 0 then false else if d = c then true else strchr ds c

/-- The routine `strncmp(str1, str2, n)` (`kernel.c`, lines 51-58). -/
def strncmp : List Nat → List Nat → Nat → Int
  | _, _, 0 => 0
  | s1, s2, n + 1 =>
    if peek s1 ≠ peek s2 ∨ peek s1 = 0 ∨ peek s2 = 0 then (peek s1 : Int) - (peek s2 : Int)
    else strncmp s1.tail s2.tail n

/-- The loop `while (*start && strchr(delim, *start)) start++` of `strtok`. -/
def skip_delims (delim : List Nat) : List Nat → List Nat
  | [] => []
  | c :: cs => if c ≠ 0 ∧ strchr delim c = true then skip_delims delim cs else c :: cs

/-- The loop `while (*end && !strchr(delim, *end)) end++` of `strtok`: the
bytes passed over and the bytes from `end` on. -/
def scan_token (delim : List Nat) : List Nat → List Nat × List Nat
  | [] => ([], [])
  | c :: cs =>
    if c ≠ 0 ∧ strchr delim c = false then
      ((c :: (scan_token delim cs).1), (scan_token delim cs).2)
    else ([], c :: cs)

/-- The routine `strtok(str, delim)` (`kernel.c`, lines 60-94).  The static
`last` is passed in and returned; `none` is the null pointer.  The result is
the returned pointer and the new `last`.  The store `*end = 0` shows in the
returned pointer: the token is followed by a terminator. -/
def strtok (last : Option (List Nat)) (str : Option (List Nat)) (delim : List Nat) :
    Option (List Nat) × Option (List Nat) :=
  let last1 := match str with
    | some p => some p
    | none => last
  match last1 with
  | none => (none, none)
  | some p =>
    if peek p = 0 then (none, some p)
    else
      let start := skip_delims delim p
      if peek start = 0 then (none, none)
      else
        let tok := (scan_token delim start).1
        let rest := (scan_token delim start).2
        if peek rest = 0 then (some start, none)
        else (some (tok ++ 0 :: rest.tail), some rest.tail)

/-- The collaborators of `user_input` that are not among the sources, taken
as parameters: `kmalloc` maps the state of the page allocator, a size and the
alignment flag to the new state, the address and the physical address;
`hex_to_ascii` gives the text of a number. -/
structure Env where
  kmalloc : Nat → Nat → Nat → Nat × Nat × Nat
  hex_to_ascii : Nat → List Nat

/-- The state of the kernel: the filesystem, the static `last` of `strtok`,
the state of the page allocator, and whether the processor was halted. -/
structure Kernel where
  fs : FS
  last : Option (List Nat)
  mem : Nat
  halted : Bool
  deriving DecidableEq, Repr

/-- Applies the end of a routine to the filesystem it returned. -/
def Res.then (r : Res FS) (f : FS → Kernel) : Res Kernel :=
  match r with
  | .ok s => .ok (f s)
  | .fault => .fault
  | .timeout => .timeout

/-- The branch of `user_input` taken by the input, before the final prompt
(`kernel.c`, lines 185-211). -/
def dispatch (env : Env) (fuel : Nat) (k : Kernel) (input : List Nat) : Res Kernel :=
  if strcmp input (str "PAGE") = 0 then
    let r := env.kmalloc k.mem 1000 1
    .ok { k with
      mem := r.1
      fs := kprint (kprint (kprint (kprint (kprint k.fs MSG_PAGE) (env.hex_to_ascii r.2.1))
        MSG_PHYS) (env.hex_to_ascii r.2.2)) MSG_NEWLINE }
  else if strncmp input (str "CREATE ") 7 = 0 then
    let args := input.drop 7
    let t1 := strtok k.last (some args) (str " ")
    let t2 := strtok t1.2 none (str "")
    match t1.1, t2.1 with
    | some filename, some data =>
      (create_file k.fs filename data).then (fun s => { k with fs := s, last := t2.2 })
    | _, _ => .ok { k with fs := kprint k.fs MSG_USAGE, last := t2.2 }
  else if strncmp input (str "READ ") 5 = 0 then
    (read_file fuel k.fs (input.drop 5)).then (fun s => { k with fs := s })
  else .ok { k with fs := kprint k.fs MSG_UNKNOWN }

/-- Modelled from the spec: the instruction `hlt` of the `END` branch, whose
effect the C source does not define.  It is to "signal the environment to
halt execution (terminal, no further input is processed)": the kernel is
marked halted. -/
def hlt (k : Kernel) : Kernel := { k with halted := true }

/-- The routine `user_input(input)` (`kernel.c`, lines 181-213).  In the `END`
branch the processor halts at `hlt`, so the prompt that follows in the source
is not printed. -/
def user_input (env : Env) (fuel : Nat) (k : Kernel) (input : List Nat) : Res Kernel :=
  if strcmp input (str "END") = 0 then
    .ok (hlt { k with fs := kprint k.fs MSG_STOP })
  else
    match dispatch env fuel k input with
    | .ok k1 => .ok { k1 with fs := kprint k1.fs MSG_PROMPT }
    | .fault => .fault
    | .timeout => .timeout

/-- Modelled from the spec: the caller of `user_input` (the keyboard driver,
not among the sources): "the dispatcher executes to completion for each input
line before the next line can be processed", and after the halt signal "no
further input is processed". -/
def run (env : Env) (fuel : Nat) : Kernel → List (List Nat) → Res Kernel
  | k, [] => .ok k
  | k, line :: lines =>
    if k.halted then .ok k
    else
      match user_input env fuel k line with
      | .ok k1 => run env fuel k1 lines
      | .fault => .fault
      | .timeout => .timeout

/-- A bump allocator and a decimal printer, to run `user_input` on concrete
input. -/
def Env.sample : Env :=
  ⟨fun mem size _ => (mem + size, mem, mem), fun n => (Nat.repr n).data.map Char.toNat⟩

/-- The kernel after `kernel_main`: the fresh filesystem, `last` null. -/
def Kernel.boot : Kernel := ⟨fresh, none, 0, false⟩

/-! ## Vocabulary of the invariants -/

/-- The variables of the allocation loop of `create_file` after one more
iteration in which `find_free_block` found a block (`kernel.c`, lines
143-149). -/
def loop_body (data : List Nat) (i : Nat) (a : Alloc) : Alloc :=
  ⟨if a.prev_block ≠ -1 then a.fat.set a.prev_block.toNat (find_free_block a.fat) else a.fat,
   write_block a.disk ((find_free_block a.fat).toNat * BLOCK_SIZE) (data.drop (i * BLOCK_SIZE)),
   if a.first_block = -1 then find_free_block a.fat else a.first_block,
   find_free_block a.fat⟩

/-- The bytes of block `b`. -/
def block_bytes (disk : List Nat) (b : Nat) : List Nat :=
  (disk.drop (b * BLOCK_SIZE)).take BLOCK_SIZE

/-- Every entry of the allocation table is `-1` or a block index that is not
below its own index. -/
def FatOK (fat : List Int) : Prop :=
  ∀ (i : Nat) (v : Int), fat[i]? = some v → v = -1 ∨ ((i : Int) ≤ v ∧ v < NUM_BLOCKS)

/-- The blocks `bs` lead from block `b` to block `p`: `b` is the first of
them (or `p` itself when there is none), each is linked by the allocation
table to a block of higher index, the last one to `p`. -/
def Linked (fat : List Int) : Nat → List Nat → Nat → Prop
  | b, [], p => b = p
  | b, c :: cs, p =>
    b = c ∧ ∃ next : Nat, c < next ∧ fat[c]? = some (next : Int) ∧ Linked fat next cs p

/-- What holds of the variables of the allocation loop of `create_file`
between two iterations: either no block was taken yet, or `prev_block` is a
block `p` below which no entry is free, whose own entry is free or points to
itself, and which the blocks taken before lead to from `first_block`. -/
def LoopInv (a : Alloc) : Prop :=
  FatOK a.fat ∧
  ((a.prev_block = -1 ∧ a.first_block = -1) ∨
    ∃ (p f : Nat) (bs : List Nat), a.prev_block = (p : Int) ∧ a.first_block = (f : Int) ∧
      p < NUM_BLOCKS ∧ (∀ j, j < p → a.fat[j]? ≠ some (-1)) ∧
      (a.fat[p]? = some (-1) ∨ a.fat[p]? = some (p : Int)) ∧ Linked a.fat f bs p)

/-- What holds of every reachable state: the arrays have their sizes,
`file_count` is within the directory, the allocation table is as `FatOK`
says, and every `start_block` of the directory is a block index. -/
def Inv (s : FS) : Prop :=
  s.WF ∧ s.file_count ≤ MAX_FILES ∧ FatOK s.fat ∧
  ∀ f ∈ s.files, 0 ≤ f.start_block ∧ f.start_block < NUM_BLOCKS

/-- A payload of 257 bytes: 9 blocks. -/
def payload257 : List Nat := List.replicate 257 65

/-- Seven creations of a 257-byte file `f`, then one of a one-byte file `a`. -/
def ops_fill : List (List Nat × List Nat) :=
  List.replicate 7 (str "f", payload257) ++ [(str "a", str "x")]

/-- The state after the creations `ops_fill` on the fresh filesystem: blocks
0 to 27 are in use, the file `a` is the block 28, which is marked `-1` as are
the blocks 29 to 31. -/
def before_failed_create : FS := (create_all fresh ops_fill).get

/-- The state after the creation of a 257-byte file `b` in the state
`before_failed_create`, which fails for lack of space. -/
def after_failed_create : FS := (create_file before_failed_create (str "b") payload257).get

/-- The state of the kernel that a run returned (the boot state when it did
not return); used to name concrete states. -/
def Res.getK : Res Kernel → Kernel
  | .ok k => k
  | .fault => Kernel.boot
  | .timeout => Kernel.boot

/-! ## Strings: lemmas -/

theorem cstr_of_no_nul (l : List Nat) (h : ∀ b ∈ l, b ≠ 0) : cstr l = l := by
  induction l with
  | nil => rfl
  | cons c cs ih =>
    have hc : c ≠ 0 := h c (List.mem_cons_self _ _)
    simp [cstr, hc, ih (fun b hb => h b (List.mem_cons_of_mem _ hb))]

theorem cstr_no_nul (l : List Nat) : ∀ b ∈ cstr l, b ≠ 0 := by
  induction l with
  | nil => simp [cstr]
  | cons c cs ih =>
    by_cases hc : c = 0
    · simp [cstr, hc]
    · simp only [cstr, hc, if_false, List.mem_cons]
      rintro b (rfl | hb)
      · exact hc
      · exact ih b hb

theorem cstr_idem (l : List Nat) : cstr (cstr l) = cstr l :=
  cstr_of_no_nul _ (cstr_no_nul l)

theorem cstr_append_zero (l r : List Nat) : cstr (cstr l ++ 0 :: r) = cstr l := by
  induction l with
  | nil => simp [cstr]
  | cons c cs ih =>
    by_cases hc : c = 0
    · simp [cstr, hc]
    · simp [cstr, hc, ih]

theorem strcmp_eq_zero_iff (a b : List Nat) : strcmp a b = 0 ↔ cstr a = cstr b := by
  induction a generalizing b with
  | nil =>
    cases b with
    | nil => simp [strcmp, cstr]
    | cons y ys =>
      by_cases hy : y = 0
      · simp [strcmp, cstr, hy]
      · simp [strcmp, cstr, hy]
  | cons x xs ih =>
    cases b with
    | nil =>
      by_cases hx : x = 0
      · simp [strcmp, cstr, hx]
      · simp [strcmp, cstr, hx]
    | cons y ys =>
      by_cases hxy : x = y
      · subst hxy
        by_cases hx : x = 0
        · simp [strcmp, cstr, hx]
        · simp [strcmp, cstr, hx, ih]
      · by_cases hx : x = 0
        · have hy : y ≠ 0 := fun h => hxy (by rw [hx, h])
          simp [strcmp, cstr, hx, hy, hxy]
          omega
        · by_cases hy : y = 0
          · simp [strcmp, cstr, hx, hy, hxy]
          · simp [strcmp, cstr, hx, hy, hxy]
            omega


theorem strncpy_length (src : List Nat) (n : Nat) : (strncpy src n).length = n := by
  induction n generalizing src with
  | zero => cases src <;> simp [strncpy]
  | succ n ih =>
    cases src with
    | nil => simp [strncpy]
    | cons c cs =>
      by_cases hc : c = 0
      · simp [strncpy, hc]
      · simp [strncpy, hc, ih]

theorem cstr_replicate_zero (k : Nat) (r : List Nat) :
    cstr (List.replicate (k + 1) 0 ++ r) = [] := by
  simp [List.replicate_succ, cstr]

/-- Printing a buffer filled by `strncpy(buffer, src, n)` shows the first `n` characters of `src`. -/
theorem cstr_strncpy (src : List Nat) (n : Nat) (r : List Nat) :
    cstr (strncpy src n ++ 0 :: r) = (cstr src).take n := by
  induction n generalizing src with
  | zero => cases src <;> simp [strncpy, cstr]
  | succ n ih =>
    cases src with
    | nil => simp [strncpy, cstr, List.replicate_succ]
    | cons c cs =>
      by_cases hc : c = 0
      · simp [strncpy, hc, cstr, List.replicate_succ]
      · simp [strncpy, hc, cstr, ih]

/-- Copying out of a region that `strncpy` filled gives the same bytes. -/
theorem strncpy_strncpy (src : List Nat) (n : Nat) (r : List Nat) :
    strncpy (strncpy src n ++ r) n = strncpy src n := by
  induction n generalizing src with
  | zero => cases src <;> cases r <;> simp [strncpy]
  | succ n ih =>
    cases src with
    | nil => simp [strncpy, List.replicate_succ]
    | cons c cs =>
      by_cases hc : c = 0
      · simp [strncpy, hc, List.replicate_succ]
      · simp [strncpy, hc, ih]

theorem find_free_block_from_spec (fat : List Int) (n i : Nat) :
    (find_free_block_from fat n i = -1 ∧ ∀ k, i ≤ k → k < i + n → fat[k]? ≠ some (-1)) ∨
    (∃ k, i ≤ k ∧ k < i + n ∧ find_free_block_from fat n i = (k : Int) ∧
      fat[k]? = some (-1) ∧ ∀ j, i ≤ j → j < k → fat[j]? ≠ some (-1)) := by
  induction n generalizing i with
  | zero =>
    left
    refine ⟨rfl, ?_⟩
    intro k h1 h2
    omega
  | succ n ih =>
    by_cases hi : fat[i]? = some (-1)
    · right
      refine ⟨i, le_refl _, by omega, by simp [find_free_block_from, hi], hi, ?_⟩
      intro j h1 h2
      omega
    · rcases ih (i + 1) with ⟨h1, h2⟩ | ⟨k, hk1, hk2, hk3, hk4, hk5⟩
      · left
        refine ⟨by simp [find_free_block_from, hi, h1], ?_⟩
        intro k hk1 hk2
        by_cases hki : k = i
        · subst hki; exact hi
        · exact h2 k (by omega) (by omega)
      · right
        refine ⟨k, by omega, by omega, by simp [find_free_block_from, hi, hk3], hk4, ?_⟩
        intro j hj1 hj2
        by_cases hji : j = i
        · subst hji; exact hi
        · exact hk5 j (by omega) hj2

theorem find_free_block_cases (fat : List Int) :
    (find_free_block fat = -1 ∧ ∀ k, k < NUM_BLOCKS → fat[k]? ≠ some (-1)) ∨
    (∃ k, k < NUM_BLOCKS ∧ find_free_block fat = (k : Int) ∧
      fat[k]? = some (-1) ∧ ∀ j, j < k → fat[j]? ≠ some (-1)) := by
  rcases find_free_block_from_spec fat NUM_BLOCKS 0 with ⟨h1, h2⟩ | ⟨k, _, hk2, hk3, hk4, hk5⟩
  · left
    exact ⟨h1, fun k hk => h2 k (Nat.zero_le _) (by omega)⟩
  · right
    exact ⟨k, by omega, hk3, hk4, fun j hj => hk5 j (Nat.zero_le _) hj⟩

/-- C8: for every allocation table, `find_free_block` returns `-1` exactly when no
entry with index below `NUM_BLOCKS` is free (`-1`); an index whose entry is
free while all lower entries are not is the result; and a result other than
`-1` is such an index.  The routine is a function of the table alone, so it
changes no state. -/
theorem find_free_block_lowest_free (fat : List Int) :
    (find_free_block fat = -1 ↔ ∀ i, i < NUM_BLOCKS → fat[i]? ≠ some (-1)) ∧
    (∀ i, i < NUM_BLOCKS → fat[i]? = some (-1) → (∀ j, j < i → fat[j]? ≠ some (-1)) →
      find_free_block fat = (i : Int)) ∧
    (find_free_block fat ≠ -1 → ∃ i, i < NUM_BLOCKS ∧ find_free_block fat = (i : Int) ∧
      fat[i]? = some (-1) ∧ ∀ j, j < i → fat[j]? ≠ some (-1)) := by
  rcases find_free_block_cases fat with ⟨h1, h2⟩ | ⟨k, hk1, hk2, hk3, hk4⟩
  · refine ⟨⟨fun _ => h2, fun _ => h1⟩, ?_, fun h => absurd h1 h⟩
    intro i hi hfree _
    exact absurd hfree (h2 i hi)
  · have hne : find_free_block fat ≠ -1 := by rw [hk2]; omega
    refine ⟨⟨fun h => absurd h hne, fun h => absurd hk3 (h k hk1)⟩, ?_, fun _ => ⟨k, hk1, hk2, hk3, hk4⟩⟩
    intro i hi hfree hlow
    have : i = k := by
      rcases Nat.lt_trichotomy i k with h | h | h
      · exact absurd hfree (hk4 i h)
      · exact h
      · exact absurd hk3 (hlow k h)
    rw [hk2, this]


/-! ## `create_file`: the three ways it returns -/

theorem create_file_limit (s : FS) (name data : List Nat) (h : MAX_FILES ≤ s.file_count) :
    create_file s name data = .ok (kprint s MSG_FILE_LIMIT) := by
  simp [create_file, h]

theorem create_file_ok_cases (s s1 : FS) (name data : List Nat)
    (h : create_file s name data = .ok s1) :
    (MAX_FILES ≤ s.file_count ∧ s1 = kprint s MSG_FILE_LIMIT) ∨
    (s.file_count < MAX_FILES ∧ ∃ a,
      create_loop data (blocks_needed (strlen data)) 0 ⟨s.fat, s.disk, -1, -1⟩ = .noSpace a ∧
      s1 = kprint { s with fat := a.fat, disk := a.disk } MSG_NO_SPACE) ∨
    (s.file_count < MAX_FILES ∧ ∃ a f,
      create_loop data (blocks_needed (strlen data)) 0 ⟨s.fat, s.disk, -1, -1⟩ = .done a ∧
      0 ≤ a.prev_block ∧ a.prev_block < NUM_BLOCKS ∧
      s.files[s.file_count]? = some f ∧ strlen name < 16 ∧
      s1 = kprint
        { disk := a.disk
          fat := a.fat.set a.prev_block.toNat (-1)
          files := s.files.set s.file_count ⟨strcpy f.name name, a.first_block, (strlen data : Int)⟩
          file_count := s.file_count + 1
          screen := s.screen }
        MSG_CREATED) := by
  unfold create_file at h
  by_cases hfull : s.file_count ≥ MAX_FILES
  · left
    simp only [hfull, if_true, Res.ok.injEq] at h
    exact ⟨hfull, h.symm⟩
  · right
    have hlt : s.file_count < MAX_FILES := by omega
    simp only [hfull, if_false] at h
    by_cases hov : strlen data + BLOCK_SIZE - 1 > INT_MAX
    · simp [hov] at h
    · simp only [hov, if_false] at h
      unfold blocks_needed
      cases hloop : create_loop data ((strlen data + BLOCK_SIZE - 1) / BLOCK_SIZE) 0
          ⟨s.fat, s.disk, -1, -1⟩ with
      | noSpace a =>
        left
        rw [hloop] at h
        simp only [Res.ok.injEq] at h
        exact ⟨hlt, a, rfl, h.symm⟩
      | done a =>
        right
        rw [hloop] at h
        simp only at h
        by_cases hprev : 0 ≤ a.prev_block ∧ a.prev_block < NUM_BLOCKS
        · simp only [hprev, and_self, if_true] at h
          cases hf : s.files[s.file_count]? with
          | none => simp [hf] at h
          | some f =>
            simp only [hf] at h
            by_cases hname : strlen name < 16
            · simp only [hname, if_true, Res.ok.injEq] at h
              exact ⟨hlt, a, f, rfl, hprev.1, hprev.2, rfl, hname, h.symm⟩
            · simp [hname] at h
        · simp [hprev] at h

theorem cstr_MSG_FILE_LIMIT : cstr MSG_FILE_LIMIT = MSG_FILE_LIMIT := by decide
theorem cstr_MSG_NO_SPACE : cstr MSG_NO_SPACE = MSG_NO_SPACE := by decide
theorem cstr_MSG_CREATED : cstr MSG_CREATED = MSG_CREATED := by decide
theorem cstr_MSG_CONTENTS : cstr MSG_CONTENTS = MSG_CONTENTS := by decide
theorem cstr_MSG_NEWLINE : cstr MSG_NEWLINE = MSG_NEWLINE := by decide
theorem cstr_MSG_NOT_FOUND : cstr MSG_NOT_FOUND = MSG_NOT_FOUND := by decide

theorem kprint_screen (s : FS) (msg : List Nat) :
    (kprint s msg).screen = s.screen ++ cstr msg := rfl

/-- C6: whenever `create_file` returns having printed the out-of-space error, in
any state and for any name and content, the `files` array and `file_count`
are exactly as before the call. -/
theorem create_file_no_space_keeps_directory (s s1 : FS) (name data : List Nat)
    (h : create_file s name data = .ok s1)
    (hmsg : s1.screen = s.screen ++ MSG_NO_SPACE) :
    s1.files = s.files ∧ s1.file_count = s.file_count := by
  rcases create_file_ok_cases s s1 name data h with
    ⟨_, rfl⟩ | ⟨_, a, _, rfl⟩ | ⟨_, a, f, _, _, _, _, _, rfl⟩
  · exact ⟨rfl, rfl⟩
  · exact ⟨rfl, rfl⟩
  · exfalso
    rw [kprint_screen, cstr_MSG_CREATED] at hmsg
    have := List.append_cancel_left hmsg
    revert this
    decide


/-! ## The allocation loop -/

theorem create_loop_succ (data : List Nat) (n i : Nat) (a : Alloc) :
    create_loop data (n + 1) i a =
      if find_free_block a.fat = -1 then .noSpace a
      else create_loop data n (i + 1)
        ⟨if a.prev_block ≠ -1 then a.fat.set a.prev_block.toNat (find_free_block a.fat) else a.fat,
         write_block a.disk ((find_free_block a.fat).toNat * BLOCK_SIZE) (data.drop (i * BLOCK_SIZE)),
         if a.first_block = -1 then find_free_block a.fat else a.first_block,
         find_free_block a.fat⟩ := rfl

/-- Once set, `first_block` is not changed by later iterations. -/
theorem create_loop_first_block (data : List Nat) (n i : Nat) (a a1 : Alloc)
    (hfirst : a.first_block ≠ -1) (h : create_loop data n i a = .done a1) :
    a1.first_block = a.first_block := by
  induction n generalizing i a with
  | zero =>
    simp only [create_loop, LoopRes.done.injEq] at h
    rw [h]
  | succ n ih =>
    rw [create_loop_succ] at h
    by_cases hb : find_free_block a.fat = -1
    · simp [hb] at h
    · simp only [hb, if_false] at h
      have := ih _ _ (by simp [hfirst]) h
      simpa [hfirst] using this

/-- When at least one iteration runs to the end, `first_block` is the block
found first and `prev_block` is a block index. -/
theorem create_loop_done (data : List Nat) (n i : Nat) (a a1 : Alloc)
    (h : create_loop data (n + 1) i a = .done a1) :
    find_free_block a.fat ≠ -1 ∧
    (a.first_block = -1 → a1.first_block = find_free_block a.fat) ∧
    0 ≤ a1.prev_block ∧ a1.prev_block < NUM_BLOCKS := by
  induction n generalizing i a with
  | zero =>
    rw [create_loop_succ] at h
    by_cases hb : find_free_block a.fat = -1
    · simp [hb] at h
    · simp only [hb, if_false, create_loop, LoopRes.done.injEq] at h
      subst h
      refine ⟨hb, fun h1 => by simp [h1], ?_⟩
      rcases find_free_block_cases a.fat with ⟨h1, _⟩ | ⟨k, hk1, hk2, _, _⟩
      · exact absurd h1 hb
      · simp only [hk2]
        omega
  | succ n ih =>
    rw [create_loop_succ] at h
    by_cases hb : find_free_block a.fat = -1
    · simp [hb] at h
    · simp only [hb, if_false] at h
      have h3 := ih _ _ h
      refine ⟨hb, ?_, h3.2.2⟩
      intro h1
      have := create_loop_first_block _ _ _ _ _ (by simp [h1, hb]) h
      simpa [h1] using this

theorem blocks_needed_pos (len : Nat) (h : 0 < len) : ∃ n, blocks_needed len = n + 1 := by
  refine ⟨blocks_needed len - 1, ?_⟩
  have : 0 < blocks_needed len := by
    unfold blocks_needed BLOCK_SIZE
    omega
  omega

/-- C10: every call of `create_file` with non-empty content that prints the
success message increments `file_count` by one, keeps the length of the
directory and every entry other than the one at the old `file_count`, and
stores there a descriptor whose name is the given name, whose size is the
length of the content and whose `start_block` is the lowest index that was
free in the allocation table before the call.  (A call that succeeds has a
name of at most 15 characters: `strcpy` of a longer one leaves the field.) -/
theorem create_file_appends_entry (s s1 : FS) (name data : List Nat)
    (hdata : 0 < strlen data)
    (h : create_file s name data = .ok s1)
    (hmsg : s1.screen = s.screen ++ MSG_CREATED) :
    s1.file_count = s.file_count + 1 ∧
    s1.files.length = s.files.length ∧
    (∀ i, i ≠ s.file_count → s1.files[i]? = s.files[i]?) ∧
    ∃ (f : File) (b : Nat), s1.files[s.file_count]? = some f ∧ cstr f.name = cstr name ∧
      f.size = (strlen data : Int) ∧ f.start_block = (b : Int) ∧ b < NUM_BLOCKS ∧
      s.fat[b]? = some (-1) ∧ ∀ j, j < b → s.fat[j]? ≠ some (-1) := by
  rcases create_file_ok_cases s s1 name data h with
    ⟨_, rfl⟩ | ⟨_, a, _, rfl⟩ | ⟨_, a, f, hloop, _, _, hf, _, rfl⟩
  · exfalso
    rw [kprint_screen, cstr_MSG_FILE_LIMIT] at hmsg
    have := List.append_cancel_left hmsg
    revert this
    decide
  · exfalso
    rw [kprint_screen, cstr_MSG_NO_SPACE] at hmsg
    have := List.append_cancel_left hmsg
    revert this
    decide
  · obtain ⟨n, hn⟩ := blocks_needed_pos (strlen data) hdata
    rw [hn] at hloop
    obtain ⟨hb, hfirst, _, _⟩ := create_loop_done data n 0 _ a hloop
    have hfirst := hfirst rfl
    have hlen : s.file_count < s.files.length := by
      rcases Nat.lt_or_ge s.file_count s.files.length with h1 | h1
      · exact h1
      · rw [List.getElem?_eq_none h1] at hf
        cases hf
    refine ⟨rfl, by simp [kprint], ?_, ?_⟩
    · intro i hi
      simp only [kprint]
      rw [List.getElem?_set_ne (Ne.symm hi)]
    · rcases find_free_block_cases s.fat with ⟨h1, _⟩ | ⟨k, hk1, hk2, hk3, hk4⟩
      · exact absurd h1 hb
      · refine ⟨⟨strcpy f.name name, a.first_block, (strlen data : Int)⟩, k, ?_, ?_, rfl, ?_,
          hk1, hk3, hk4⟩
        · simp only [kprint]
          rw [List.getElem?_set_self hlen]
        · exact cstr_append_zero _ _
        · simp only [hfirst]
          exact hk2


/-! ## `read_file` -/

theorem cstr_take (l : List Nat) (n : Nat) : cstr (l.take n) = (cstr l).take n := by
  induction n generalizing l with
  | zero => simp [cstr]
  | succ n ih =>
    cases l with
    | nil => simp [cstr]
    | cons c cs =>
      by_cases hc : c = 0
      · simp [cstr, hc]
      · simp [cstr, hc, ih]

/-- What one iteration of the read loop prints is the text of the block. -/
theorem cstr_buffer (disk : List Nat) (b : Nat) :
    cstr (strncpy (disk.drop (b * BLOCK_SIZE)) BLOCK_SIZE ++ [0]) = block_text disk b := by
  rw [cstr_strncpy, block_text, cstr_take]

theorem read_chain_succ (fat : List Int) (disk : List Nat) (fuel : Nat) (block : Int) (s : FS) :
    read_chain fat disk (fuel + 1) block s =
      if block = -1 then .ok s
      else if 0 ≤ block ∧ block < NUM_BLOCKS then
        match fat[block.toNat]? with
        | none => .fault
        | some next =>
          read_chain fat disk fuel next
            (kprint s (strncpy (disk.drop (block.toNat * BLOCK_SIZE)) BLOCK_SIZE ++ [0]))
      else .fault := by
  rw [read_chain]

theorem read_chain_zero (fat : List Int) (disk : List Nat) (block : Int) (s : FS) :
    read_chain fat disk 0 block s = if block = -1 then .ok s else .timeout := by
  rw [read_chain]

theorem chain_succ (fat : List Int) (fuel : Nat) (block : Int) :
    chain fat (fuel + 1) block =
      if block = -1 then some []
      else if 0 ≤ block ∧ block < NUM_BLOCKS then
        match fat[block.toNat]? with
        | none => none
        | some next => (chain fat fuel next).map (fun bs => block.toNat :: bs)
      else none := by
  rw [chain]

theorem chain_zero (fat : List Int) (block : Int) :
    chain fat 0 block = if block = -1 then some [] else none := by
  rw [chain]

/-- The read loop only appends to the screen. -/
theorem read_chain_screen (fat : List Int) (disk : List Nat) (fuel : Nat) (block : Int)
    (s s1 : FS) (h : read_chain fat disk fuel block s = .ok s1) :
    ∃ t, s1 = { s with screen := s.screen ++ t } := by
  induction fuel generalizing block s with
  | zero =>
    rw [read_chain_zero] at h
    by_cases hb : block = -1
    · simp only [hb, if_true, Res.ok.injEq] at h
      exact ⟨[], by simp [← h]⟩
    · simp [hb] at h
  | succ fuel ih =>
    rw [read_chain_succ] at h
    by_cases hb : block = -1
    · simp only [hb, if_true, Res.ok.injEq] at h
      exact ⟨[], by simp [← h]⟩
    · simp only [hb, if_false] at h
      by_cases hr : 0 ≤ block ∧ block < NUM_BLOCKS
      · simp only [hr, and_self, if_true] at h
        cases hn : fat[block.toNat]? with
        | none => simp [hn] at h
        | some next =>
          simp only [hn] at h
          obtain ⟨t, ht⟩ := ih _ _ h
          exact ⟨cstr (strncpy (disk.drop (block.toNat * BLOCK_SIZE)) BLOCK_SIZE ++ [0]) ++ t,
            by simp [ht, kprint]⟩
      · simp [hr] at h

/-- When the chain reaches the end marker, the read loop prints the text of
its blocks in order. -/
theorem read_chain_of_chain (fat : List Int) (disk : List Nat) (fuel : Nat) (block : Int)
    (s : FS) (bs : List Nat) (h : chain fat fuel block = some bs) :
    read_chain fat disk fuel block s = .ok { s with screen := s.screen ++ chain_text disk bs } := by
  induction fuel generalizing block s bs with
  | zero =>
    rw [chain_zero] at h
    rw [read_chain_zero]
    by_cases hb : block = -1
    · simp only [hb, if_true, Option.some.injEq] at h
      simp [hb, ← h, chain_text]
    · simp [hb] at h
  | succ fuel ih =>
    rw [chain_succ] at h
    rw [read_chain_succ]
    by_cases hb : block = -1
    · simp only [hb, if_true, Option.some.injEq] at h
      simp [hb, ← h, chain_text]
    · simp only [hb, if_false] at h ⊢
      by_cases hr : 0 ≤ block ∧ block < NUM_BLOCKS
      · simp only [hr, and_self, if_true] at h ⊢
        cases hn : fat[block.toNat]? with
        | none => simp [hn] at h
        | some next =>
          simp only [hn, Option.map_eq_some'] at h ⊢
          obtain ⟨bs1, hbs1, rfl⟩ := h
          rw [ih _ _ _ hbs1]
          simp [kprint, chain_text, cstr_buffer]
      · simp [hr] at h

theorem read_entry_of_chain (fuel : Nat) (s : FS) (f : File) (bs : List Nat)
    (h : chain s.fat fuel f.start_block = some bs) :
    read_entry fuel s f =
      .ok { s with screen := s.screen ++ MSG_CONTENTS ++ chain_text s.disk bs ++ MSG_NEWLINE } := by
  unfold read_entry
  rw [read_chain_of_chain _ _ _ _ _ _ h]
  simp [kprint, cstr_MSG_CONTENTS, cstr_MSG_NEWLINE]

/-- A matching entry never yields the not-found message. -/
theorem read_entry_ne_not_found (fuel : Nat) (s : FS) (f : File) :
    read_entry fuel s f ≠ .ok (kprint s MSG_NOT_FOUND) := by
  unfold read_entry
  cases hc : read_chain s.fat s.disk fuel f.start_block (kprint s MSG_CONTENTS) with
  | fault => simp
  | timeout => simp
  | ok s1 =>
    obtain ⟨t, rfl⟩ := read_chain_screen _ _ _ _ _ _ hc
    simp only [ne_eq, Res.ok.injEq]
    intro h
    have h2 := congrArg FS.screen h
    simp only [kprint, List.append_assoc, cstr_MSG_CONTENTS, cstr_MSG_NEWLINE,
      cstr_MSG_NOT_FOUND] at h2
    have h3 := List.append_cancel_left h2
    revert h3
    simp [MSG_CONTENTS, MSG_NOT_FOUND, str]

theorem read_file_from_spec (fuel : Nat) (s : FS) (name : List Nat) (n i : Nat)
    (hlen : i + n ≤ s.files.length) :
    ((∀ k f, i ≤ k → k < i + n → s.files[k]? = some f → cstr f.name ≠ cstr name) ∧
      read_file_from fuel s name n i = .ok (kprint s MSG_NOT_FOUND)) ∨
    (∃ k f, i ≤ k ∧ k < i + n ∧ s.files[k]? = some f ∧ cstr f.name = cstr name ∧
      (∀ j g, i ≤ j → j < k → s.files[j]? = some g → cstr g.name ≠ cstr name) ∧
      read_file_from fuel s name n i = read_entry fuel s f) := by
  induction n generalizing i with
  | zero =>
    left
    refine ⟨?_, rfl⟩
    intro k f h1 h2
    omega
  | succ n ih =>
    have hi : i < s.files.length := by omega
    have hget : s.files[i]? = some s.files[i] := List.getElem?_eq_getElem hi
    by_cases hm : cstr s.files[i].name = cstr name
    · right
      refine ⟨i, s.files[i], le_refl _, by omega, hget, hm, ?_, ?_⟩
      · intro j g h1 h2
        omega
      · simp [read_file_from, hget, (strcmp_eq_zero_iff _ _).mpr hm]
    · have hstep : read_file_from fuel s name (n + 1) i = read_file_from fuel s name n (i + 1) := by
        have : strcmp s.files[i].name name ≠ 0 := fun h => hm ((strcmp_eq_zero_iff _ _).mp h)
        simp [read_file_from, hget, this]
      rcases ih (i + 1) (by omega) with ⟨h1, h2⟩ | ⟨k, f, hk1, hk2, hk3, hk4, hk5, hk6⟩
      · left
        refine ⟨?_, by rw [hstep, h2]⟩
        intro k f hk1 hk2 hf
        by_cases hki : k = i
        · subst hki
          rw [hget] at hf
          cases hf
          exact hm
        · exact h1 k f (by omega) (by omega) hf
      · right
        refine ⟨k, f, by omega, by omega, hk3, hk4, ?_, by rw [hstep, hk6]⟩
        intro j g hj1 hj2 hg
        by_cases hji : j = i
        · subst hji
          rw [hget] at hg
          cases hg
          exact hm
        · exact hk5 j g (by omega) hj2 hg

/-- The entry that `read_file` prints is the first one with the name. -/
theorem read_file_first_match (fuel : Nat) (s : FS) (name : List Nat) (i : Nat) (f : File)
    (hdir : s.file_count ≤ s.files.length)
    (hi : i < s.file_count) (hf : s.files[i]? = some f) (hname : cstr f.name = cstr name)
    (hfirst : ∀ j g, j < i → s.files[j]? = some g → cstr g.name ≠ cstr name) :
    read_file fuel s name = read_entry fuel s f := by
  unfold read_file
  rcases read_file_from_spec fuel s name s.file_count 0 (by omega) with
    ⟨h1, _⟩ | ⟨k, g, _, hk2, hk3, hk4, hk5, hk6⟩
  · exact absurd hname (h1 i f (Nat.zero_le _) (by omega) hf)
  · have hki : k = i := by
      rcases Nat.lt_trichotomy k i with h | h | h
      · exact absurd hk4 (hfirst k g h hk3)
      · exact h
      · exact absurd hname (hk5 i f (Nat.zero_le _) h hf)
    subst hki
    rw [hk3] at hf
    cases hf
    exact hk6

theorem read_file_not_found_iff (fuel : Nat) (s : FS) (name : List Nat)
    (hdir : s.file_count ≤ s.files.length) :
    read_file fuel s name = .ok (kprint s MSG_NOT_FOUND) ↔
      ∀ i f, i < s.file_count → s.files[i]? = some f → cstr f.name ≠ cstr name := by
  unfold read_file
  rcases read_file_from_spec fuel s name s.file_count 0 (by omega) with
    ⟨h1, h2⟩ | ⟨k, g, _, hk2, hk3, hk4, _, hk6⟩
  · exact ⟨fun _ i f hi hf => h1 i f (Nat.zero_le _) (by omega) hf, fun _ => h2⟩
  · constructor
    · intro h
      rw [hk6] at h
      exact absurd h (read_entry_ne_not_found fuel s g)
    · intro h
      exact absurd hk4 (h k g (by omega) hk3)

/-- C9: in every state whose `file_count` entries lie in the directory array,
`read_file(name)` prints exactly the not-found error if and only if none of
the first `file_count` entries has a name equal to `name`; otherwise it runs
the chain walk of the lowest-index entry with that name, whatever later
entries are called, and when that chain reaches the end marker it prints the
header, the text of the blocks of the chain in order, and a newline. -/
theorem read_file_not_found_or_first_match (fuel : Nat) (s : FS) (name : List Nat)
    (hdir : s.file_count ≤ s.files.length) :
    (read_file fuel s name = .ok { s with screen := s.screen ++ MSG_NOT_FOUND } ↔
      ∀ i f, i < s.file_count → s.files[i]? = some f → cstr f.name ≠ cstr name) ∧
    (∀ i f, i < s.file_count → s.files[i]? = some f → cstr f.name = cstr name →
      (∀ j g, j < i → s.files[j]? = some g → cstr g.name ≠ cstr name) →
      read_file fuel s name = read_entry fuel s f ∧
      ∀ bs, chain s.fat fuel f.start_block = some bs →
        read_file fuel s name = .ok { s with
          screen := s.screen ++ MSG_CONTENTS ++ chain_text s.disk bs ++ MSG_NEWLINE }) := by
  refine ⟨?_, ?_⟩
  · have := read_file_not_found_iff fuel s name hdir
    rw [kprint, cstr_MSG_NOT_FOUND] at this
    exact this
  · intro i f hi hf hname hfirst
    have h := read_file_first_match fuel s name i f hdir hi hf hname hfirst
    refine ⟨h, fun bs hbs => ?_⟩
    rw [h, read_entry_of_chain fuel s f bs hbs]


/-! ## Create then read, one block -/

theorem cstr_strncpy_self (src : List Nat) (n : Nat) :
    cstr (strncpy src n) = (cstr src).take n := by
  induction n generalizing src with
  | zero => cases src <;> simp [strncpy, cstr]
  | succ n ih =>
    cases src with
    | nil => simp [strncpy, cstr, List.replicate_succ]
    | cons c cs =>
      by_cases hc : c = 0
      · simp [strncpy, hc, cstr, List.replicate_succ]
      · simp [strncpy, hc, cstr, ih]

/-- The block just written holds the first `BLOCK_SIZE` characters of the source. -/
theorem block_text_write_block (disk : List Nat) (b : Nat) (src : List Nat)
    (h : b * BLOCK_SIZE ≤ disk.length) :
    block_text (write_block disk (b * BLOCK_SIZE) src) b = (cstr src).take BLOCK_SIZE := by
  unfold block_text write_block
  have h1 : (List.take (b * BLOCK_SIZE) disk).length = b * BLOCK_SIZE := by
    simp [List.length_take, h]
  rw [List.append_assoc, List.drop_append_eq_append_drop, h1]
  simp only [Nat.sub_self, List.drop_zero]
  rw [List.drop_eq_nil_of_le (le_of_eq h1), List.nil_append, List.take_append_eq_append_take,
    strncpy_length]
  simp only [Nat.sub_self, List.take_zero, List.append_nil]
  rw [List.take_of_length_le (le_of_eq (strncpy_length _ _)), cstr_strncpy_self]

theorem create_file_done (s : FS) (name data : List Nat) (a : Alloc) (f : File)
    (hroom : s.file_count < MAX_FILES)
    (hsize : strlen data + BLOCK_SIZE - 1 ≤ INT_MAX)
    (hloop : create_loop data (blocks_needed (strlen data)) 0 ⟨s.fat, s.disk, -1, -1⟩ = .done a)
    (hprev : 0 ≤ a.prev_block ∧ a.prev_block < NUM_BLOCKS)
    (hf : s.files[s.file_count]? = some f) (hname : strlen name < 16) :
    create_file s name data = .ok (kprint
      { disk := a.disk
        fat := a.fat.set a.prev_block.toNat (-1)
        files := s.files.set s.file_count ⟨strcpy f.name name, a.first_block, (strlen data : Int)⟩
        file_count := s.file_count + 1
        screen := s.screen }
      MSG_CREATED) := by
  unfold blocks_needed at hloop
  have h1 : ¬ s.file_count ≥ MAX_FILES := by omega
  have h2 : ¬ strlen data + BLOCK_SIZE - 1 > INT_MAX := by omega
  simp only [create_file, h1, h2, if_false, hloop, hprev, and_self, if_true, hf, hname]

/-- C1: in any well-formed state whose directory is not full, that has a free
block and no entry called `name`, for a name of at most 15 characters and a
content of 1 to 31 bytes without a NUL byte, `create_file(name, content)`
prints the success message and `read_file(name)` in the resulting state
prints the header, exactly the content, and the newline. -/
theorem create_then_read_short (fuel : Nat) (s : FS) (name data : List Nat)
    (hwf : s.WF) (hname : strlen name ≤ 15)
    (hlen1 : 1 ≤ data.length) (hlen2 : data.length ≤ 31) (hnul : ∀ b ∈ data, b ≠ 0)
    (hroom : s.file_count < MAX_FILES)
    (hfree : ∃ i, i < NUM_BLOCKS ∧ s.fat[i]? = some (-1))
    (hnew : ∀ i f, i < s.file_count → s.files[i]? = some f → cstr f.name ≠ cstr name)
    (hfuel : 1 ≤ fuel) :
    ∃ s1, create_file s name data = .ok s1 ∧ s1.screen = s.screen ++ MSG_CREATED ∧
      read_file fuel s1 name =
        .ok { s1 with screen := s1.screen ++ MSG_CONTENTS ++ data ++ MSG_NEWLINE } := by
  obtain ⟨hdisk, hfat, hfiles⟩ := hwf
  have hcstr : cstr data = data := cstr_of_no_nul data hnul
  have hstrlen : strlen data = data.length := by rw [strlen, hcstr]
  have hneed : blocks_needed (strlen data) = 1 := by
    rw [hstrlen]
    unfold blocks_needed BLOCK_SIZE
    omega
  -- the block that the allocator returns
  obtain ⟨k, hk1, hk2, hk3, _⟩ : ∃ k, k < NUM_BLOCKS ∧ find_free_block s.fat = (k : Int) ∧
      s.fat[k]? = some (-1) ∧ ∀ j, j < k → s.fat[j]? ≠ some (-1) := by
    rcases find_free_block_cases s.fat with ⟨_, h2⟩ | h
    · obtain ⟨i, hi1, hi2⟩ := hfree
      exact absurd hi2 (h2 i hi1)
    · exact h
  have hkne : ((k : Nat) : Int) ≠ -1 := by omega
  have hloop : create_loop data (blocks_needed (strlen data)) 0 ⟨s.fat, s.disk, -1, -1⟩ =
      .done ⟨s.fat, write_block s.disk (k * BLOCK_SIZE) data, (k : Int), (k : Int)⟩ := by
    rw [hneed, create_loop_succ]
    simp [hk2, hkne, create_loop]
  have hfc : s.file_count < s.files.length := by rw [hfiles]; exact hroom
  have hf : s.files[s.file_count]? = some s.files[s.file_count] := List.getElem?_eq_getElem hfc
  have hcreate := create_file_done s name data _ _ hroom
    (by rw [hstrlen]; unfold BLOCK_SIZE INT_MAX; omega) hloop
    ⟨by simp, by simpa using hk1⟩ hf (by omega)
  simp only [Int.toNat_ofNat] at hcreate
  refine ⟨_, hcreate, by rw [kprint_screen, cstr_MSG_CREATED], ?_⟩
  -- the new entry is the first one with this name
  have hkfat : k < s.fat.length := by rw [hfat]; exact hk1
  have hread := read_file_first_match fuel
    (kprint
      { disk := write_block s.disk (k * BLOCK_SIZE) data
        fat := s.fat.set k (-1)
        files := s.files.set s.file_count
          ⟨strcpy s.files[s.file_count].name name, (k : Int), (strlen data : Int)⟩
        file_count := s.file_count + 1
        screen := s.screen }
      MSG_CREATED)
    name s.file_count
    ⟨strcpy s.files[s.file_count].name name, (k : Int), (strlen data : Int)⟩
    (by simp [kprint]; omega) (by simp [kprint])
    (by simp only [kprint]; rw [List.getElem?_set_self hfc])
    (cstr_append_zero _ _)
    (by
      intro j g hj hg
      simp only [kprint] at hg
      rw [List.getElem?_set_ne (by omega)] at hg
      exact hnew j g hj hg)
  rw [hread]
  -- its chain is the single block `k`
  obtain ⟨fuel1, rfl⟩ : ∃ fuel1, fuel = fuel1 + 1 := ⟨fuel - 1, by omega⟩
  have hchain : chain (s.fat.set k (-1)) (fuel1 + 1) (k : Int) = some [k] := by
    rw [chain_succ]
    have hend : chain (s.fat.set k (-1)) fuel1 (-1) = some [] := by
      cases fuel1 with
      | zero => rw [chain_zero]; simp
      | succ m => rw [chain_succ]; simp
    simp [hkne, hk1, List.getElem?_set_self hkfat, hend]
  rw [read_entry_of_chain _ _ _ [k] (by simpa [kprint] using hchain)]
  have hoff : k * BLOCK_SIZE ≤ s.disk.length := by
    rw [hdisk]
    unfold NUM_BLOCKS DISK_SIZE BLOCK_SIZE at *
    omega
  have htext : chain_text (write_block s.disk (k * BLOCK_SIZE) data) [k] = data := by
    simp only [chain_text, List.append_nil]
    rw [block_text_write_block _ _ _ hoff, hcstr]
    exact List.take_of_length_le (by unfold BLOCK_SIZE; omega)
  simp only [kprint, htext]


/-! ## Concrete runs -/

theorem reachable_fresh : Reachable fresh := Reachable.init FS.boot

theorem reachable_create_all (s t : FS) (ops : List (List Nat × List Nat))
    (hs : Reachable s) (h : create_all s ops = .ok t) : Reachable t := by
  induction ops generalizing s with
  | nil =>
    simp only [create_all, Res.ok.injEq] at h
    rw [← h]
    exact hs
  | cons op rest ih =>
    obtain ⟨name, data⟩ := op
    simp only [create_all] at h
    cases hc : create_file s name data with
    | ok s1 =>
      rw [hc] at h
      exact ih s1 (Reachable.create s s1 name data hs hc) h
    | fault => rw [hc] at h; cases h
    | timeout => rw [hc] at h; cases h

set_option maxRecDepth 100000 in
/-- C2 (failing input): a 40-byte file created on the fresh filesystem reads
back as its last 8 bytes only. -/
theorem create_then_read_40_bytes :
    payload40.length = 40 ∧ (∀ b ∈ payload40, b ≠ 0) ∧
    (create_file fresh (str "a") payload40).get.screen = fresh.screen ++ MSG_CREATED ∧
    create_file fresh (str "a") payload40 = .ok (create_file fresh (str "a") payload40).get ∧
    read_file NUM_BLOCKS (create_file fresh (str "a") payload40).get (str "a") =
      .ok { (create_file fresh (str "a") payload40).get with
        screen := fresh.screen ++ MSG_CREATED ++ MSG_CONTENTS ++ str "wxyzABCD" ++ MSG_NEWLINE } ∧
    str "wxyzABCD" ≠ payload40 := by
  decide

set_option maxRecDepth 100000 in
/-- C3 (failing input): after creating a 40-byte file on the fresh filesystem
the chain of the new entry is the single block 0, although two blocks are
needed. -/
theorem chain_of_40_bytes :
    create_file fresh (str "a") payload40 = .ok (create_file fresh (str "a") payload40).get ∧
    (create_file fresh (str "a") payload40).get.screen = fresh.screen ++ MSG_CREATED ∧
    blocks_needed (strlen payload40) = 2 ∧
    (create_file fresh (str "a") payload40).get.files[0]? =
      some ⟨strcpy File.zero.name (str "a"), 0, 40⟩ ∧
    chain (create_file fresh (str "a") payload40).get.fat NUM_BLOCKS 0 = some [0] := by
  decide

set_option maxRecDepth 100000 in
/-- C4 (failing input): after two one-byte files are created on the fresh
filesystem, block 0 is on the chain of both directory entries. -/
theorem block_on_two_chains :
    Reachable (create_all fresh [(str "a", str "x"), (str "b", str "y")]).get ∧
    (create_all fresh [(str "a", str "x"), (str "b", str "y")]).get.file_count = 2 ∧
    ((create_all fresh [(str "a", str "x"), (str "b", str "y")]).get.files.take 2).map
      (fun f => chain (create_all fresh [(str "a", str "x"), (str "b", str "y")]).get.fat
        NUM_BLOCKS f.start_block) = [some [0], some [0]] := by
  refine ⟨reachable_create_all fresh _ [(str "a", str "x"), (str "b", str "y")] reachable_fresh ?_,
    ?_, ?_⟩ <;> decide

set_option maxRecDepth 100000 in
/-- C5 (failing input): on the fresh filesystem, with 32 free blocks, creating
a file of 1025 bytes (33 blocks needed) reports success. -/
theorem create_1025_bytes_succeeds :
    Reachable fresh ∧ fresh.file_count < MAX_FILES ∧
    free_count fresh.fat = 32 ∧ blocks_needed (strlen payload1025) = 33 ∧
    create_file fresh (str "a") payload1025 = .ok (create_file fresh (str "a") payload1025).get ∧
    (create_file fresh (str "a") payload1025).get.screen = fresh.screen ++ MSG_CREATED := by
  refine ⟨reachable_fresh, ?_, ?_, ?_, ?_, ?_⟩ <;> decide!


/-! ## The directory limit -/

theorem create_file_created_count (s s1 : FS) (name data : List Nat)
    (h : create_file s name data = .ok s1) (hmsg : s1.screen = s.screen ++ MSG_CREATED) :
    s1.file_count = s.file_count + 1 := by
  rcases create_file_ok_cases s s1 name data h with
    ⟨_, rfl⟩ | ⟨_, a, _, rfl⟩ | ⟨_, a, f, _, _, _, _, _, rfl⟩
  · exfalso
    rw [kprint_screen, cstr_MSG_FILE_LIMIT] at hmsg
    have := List.append_cancel_left hmsg
    revert this
    decide
  · exfalso
    rw [kprint_screen, cstr_MSG_NO_SPACE] at hmsg
    have := List.append_cancel_left hmsg
    revert this
    decide
  · rfl

theorem create_all_ok_count (s t : FS) (ops : List (List Nat × List Nat))
    (h : create_all_ok s ops = some t) : t.file_count = s.file_count + ops.length := by
  induction ops generalizing s with
  | nil =>
    simp only [create_all_ok, Option.some.injEq] at h
    simp [h]
  | cons op rest ih =>
    obtain ⟨name, data⟩ := op
    simp only [create_all_ok] at h
    cases hc : create_file s name data with
    | ok s1 =>
      rw [hc] at h
      by_cases hmsg : s1.screen = s.screen ++ MSG_CREATED
      · simp only [hmsg, if_true] at h
        rw [ih s1 h, create_file_created_count s s1 name data hc hmsg, List.length_cons]
        omega
      · simp [hmsg] at h
    | fault => rw [hc] at h; cases h
    | timeout => rw [hc] at h; cases h

/-- C7: when `file_count` has reached `MAX_FILES`, `create_file` returns the state
it was given with only the file-limit error added to the screen; and after
`MAX_FILES` successful creations on an initialised filesystem `file_count`
is `MAX_FILES`, so the next creation fails in this way. -/
theorem create_file_limit_no_side_effects (s : FS) (name data : List Nat) :
    (MAX_FILES ≤ s.file_count →
      create_file s name data = .ok { s with screen := s.screen ++ MSG_FILE_LIMIT }) ∧
    (∀ s0 ops, ops.length = MAX_FILES → create_all_ok (initialize_filesystem s0) ops = some s →
      s.file_count = MAX_FILES ∧
      create_file s name data = .ok { s with screen := s.screen ++ MSG_FILE_LIMIT }) := by
  have key : MAX_FILES ≤ s.file_count →
      create_file s name data = .ok { s with screen := s.screen ++ MSG_FILE_LIMIT } := by
    intro h
    rw [create_file_limit s name data h, kprint, cstr_MSG_FILE_LIMIT]
  refine ⟨key, ?_⟩
  intro s0 ops hlen hops
  have hcount := create_all_ok_count _ _ _ hops
  have h0 : (initialize_filesystem s0).file_count = 0 := rfl
  rw [h0, hlen, Nat.zero_add] at hcount
  exact ⟨hcount, key (le_of_eq hcount.symm)⟩


/-! ## Instances at concrete states -/

/-- A property of the first `n` entries of a list, stated by index, follows
from the same property stated by membership. -/
theorem forall_index_of_forall_take {α : Type} (l : List α) (n : Nat) (P : α → Prop)
    (h : ∀ x ∈ l.take n, P x) : ∀ i x, i < n → l[i]? = some x → P x := by
  intro i x hi hx
  apply h
  rw [List.mem_iff_getElem?]
  exact ⟨i, by rw [List.getElem?_take_of_lt hi, hx]⟩

set_option maxRecDepth 100000 in
/-- Instance of C1: after a 40-byte file was stored, a two-byte file created in
the same block reads back as its two bytes. -/
theorem create_then_read_short_witness :
    (create_file fresh (str "b") payload40).get.WF ∧
    ∃ s1, create_file (create_file fresh (str "b") payload40).get (str "a") (str "hi") = .ok s1 ∧
      s1.screen = (create_file fresh (str "b") payload40).get.screen ++ MSG_CREATED ∧
      read_file 1 s1 (str "a") =
        .ok { s1 with screen := s1.screen ++ MSG_CONTENTS ++ str "hi" ++ MSG_NEWLINE } :=
  ⟨by decide,
    create_then_read_short 1 (create_file fresh (str "b") payload40).get (str "a") (str "hi")
      (by decide) (by decide) (by decide) (by decide) (by decide) (by decide)
      ⟨0, by decide, by decide⟩
      (forall_index_of_forall_take _ _ (fun (f : File) => cstr f.name ≠ cstr (str "a")) (by decide))
      (by decide)⟩

set_option maxRecDepth 100000 in
/-- Instance of C6: a file of 2049 bytes on the fresh filesystem. -/
theorem create_file_no_space_keeps_directory_witness :
    create_file fresh (str "a") payload2049 = .ok (create_file fresh (str "a") payload2049).get ∧
    (create_file fresh (str "a") payload2049).get.screen = fresh.screen ++ MSG_NO_SPACE ∧
    (create_file fresh (str "a") payload2049).get.files = fresh.files ∧
    (create_file fresh (str "a") payload2049).get.file_count = fresh.file_count :=
  ⟨by decide!, by decide!,
    create_file_no_space_keeps_directory fresh (create_file fresh (str "a") payload2049).get
      (str "a") payload2049 (by decide!) (by decide!)⟩

set_option maxRecDepth 100000 in
/-- Instance of C7: the eleventh creation after ten successful ones. -/
theorem create_file_limit_no_side_effects_witness :
    create_all_ok fresh ops10 = some (create_all fresh ops10).get ∧
    MAX_FILES ≤ (create_all fresh ops10).get.file_count ∧
    create_file (create_all fresh ops10).get (str "k") (str "z") =
      .ok { (create_all fresh ops10).get with
        screen := (create_all fresh ops10).get.screen ++ MSG_FILE_LIMIT } :=
  ⟨by decide, by decide,
    (create_file_limit_no_side_effects (create_all fresh ops10).get (str "k") (str "z")).1
      (by decide)⟩

/-- Instance of C8: a table whose entries 1 and 3 are free. -/
theorem find_free_block_lowest_free_witness :
    find_free_block [5, -1, 7, -1] = 1 :=
  (find_free_block_lowest_free [5, -1, 7, -1]).2.1 1 (by decide) (by decide) (by decide)

set_option maxRecDepth 100000 in
/-- Instance of C9: reading a name that no entry has. -/
theorem read_file_not_found_or_first_match_witness :
    (create_all fresh [(str "a", str "x"), (str "a", payload40)]).get.file_count ≤
      (create_all fresh [(str "a", str "x"), (str "a", payload40)]).get.files.length ∧
    read_file 1 (create_all fresh [(str "a", str "x"), (str "a", payload40)]).get (str "b") =
      .ok { (create_all fresh [(str "a", str "x"), (str "a", payload40)]).get with
        screen := (create_all fresh [(str "a", str "x"), (str "a", payload40)]).get.screen ++
          MSG_NOT_FOUND } :=
  ⟨by decide,
    ((read_file_not_found_or_first_match 1
      (create_all fresh [(str "a", str "x"), (str "a", payload40)]).get (str "b")
      (by decide)).1).mpr
      (forall_index_of_forall_take _ _ (fun (f : File) => cstr f.name ≠ cstr (str "b")) (by decide))⟩

set_option maxRecDepth 100000 in
/-- Instance of C10: a five-byte file on the fresh filesystem. -/
theorem create_file_appends_entry_witness :
    0 < strlen (str "hello") ∧
    create_file fresh (str "a") (str "hello") =
      .ok (create_file fresh (str "a") (str "hello")).get ∧
    (create_file fresh (str "a") (str "hello")).get.file_count = fresh.file_count + 1 :=
  ⟨by decide, by decide,
    (create_file_appends_entry fresh (create_file fresh (str "a") (str "hello")).get
      (str "a") (str "hello") (by decide) (by decide) (by decide)).1⟩


/-! ## After the first sitting -/

/-! ## The directory is append-only -/

theorem read_entry_ok (fuel : Nat) (s s1 : FS) (f : File) (h : read_entry fuel s f = .ok s1) :
    ∃ t, s1 = { s with screen := s.screen ++ t } := by
  unfold read_entry at h
  cases hc : read_chain s.fat s.disk fuel f.start_block (kprint s MSG_CONTENTS) with
  | fault => rw [hc] at h; cases h
  | timeout => rw [hc] at h; cases h
  | ok s2 =>
    rw [hc] at h
    simp only [Res.ok.injEq] at h
    obtain ⟨t, rfl⟩ := read_chain_screen _ _ _ _ _ _ hc
    exact ⟨cstr MSG_CONTENTS ++ t ++ cstr MSG_NEWLINE, by simp [← h, kprint]⟩

theorem read_file_from_ok (fuel : Nat) (s s1 : FS) (name : List Nat) (n i : Nat)
    (h : read_file_from fuel s name n i = .ok s1) :
    ∃ t, s1 = { s with screen := s.screen ++ t } := by
  induction n generalizing i with
  | zero =>
    simp only [read_file_from, Res.ok.injEq] at h
    exact ⟨cstr MSG_NOT_FOUND, by simp [← h, kprint]⟩
  | succ n ih =>
    simp only [read_file_from] at h
    cases hf : s.files[i]? with
    | none => rw [hf] at h; cases h
    | some f =>
      rw [hf] at h
      simp only at h
      by_cases hm : strcmp f.name name = 0
      · simp only [hm, if_true] at h
        exact read_entry_ok fuel s s1 f h
      · simp only [hm, if_false] at h
        exact ih _ h

/-- Reading changes nothing but the screen. -/
theorem read_file_ok (fuel : Nat) (s s1 : FS) (name : List Nat)
    (h : read_file fuel s name = .ok s1) :
    ∃ t, s1 = { s with screen := s.screen ++ t } :=
  read_file_from_ok fuel s s1 name _ _ h

/-- A call of `create_file` that returns leaves the entries below the old
`file_count` as they were and does not lower `file_count`. -/
theorem create_file_keeps_entries (s s1 : FS) (name data : List Nat)
    (h : create_file s name data = .ok s1) :
    s.file_count ≤ s1.file_count ∧ s1.file_count ≤ s.file_count + 1 ∧
    (s.file_count < MAX_FILES ∨ s1.file_count = s.file_count) ∧
    ∀ i, i < s.file_count → s1.files[i]? = s.files[i]? := by
  rcases create_file_ok_cases s s1 name data h with
    ⟨_, rfl⟩ | ⟨_, a, _, rfl⟩ | ⟨hlt, a, f, _, _, _, _, _, rfl⟩
  · exact ⟨le_refl _, Nat.le_succ _, Or.inr rfl, fun _ _ => rfl⟩
  · exact ⟨le_refl _, Nat.le_succ _, Or.inr rfl, fun _ _ => rfl⟩
  · refine ⟨Nat.le_succ _, le_refl _, Or.inl hlt, ?_⟩
    intro i hi
    simp only [kprint]
    rw [List.getElem?_set_ne (by omega)]

theorem reachable_file_count (s : FS) (hs : Reachable s) : s.file_count ≤ MAX_FILES := by
  induction hs with
  | init s0 => exact Nat.zero_le _
  | create s s1 name data _ hc ih =>
    obtain ⟨_, h2, h3, _⟩ := create_file_keeps_entries s s1 name data hc
    rcases h3 with h3 | h3 <;> omega

/-- C11: the directory is append-only.  Whenever `create_file` returns (with
the success message, the out-of-space error or the file-limit error), every
descriptor at an index below the old `file_count` is as before and
`file_count` has not decreased; `read_file` leaves the directory and
`file_count` untouched; and `file_count` is at most `MAX_FILES` in every
state reachable from `initialize_filesystem`. -/
theorem directory_append_only :
    (∀ (s s1 : FS) (name data : List Nat), create_file s name data = .ok s1 →
      s.file_count ≤ s1.file_count ∧ ∀ i, i < s.file_count → s1.files[i]? = s.files[i]?) ∧
    (∀ (fuel : Nat) (s s1 : FS) (name : List Nat), read_file fuel s name = .ok s1 →
      s1.files = s.files ∧ s1.file_count = s.file_count) ∧
    (∀ s : FS, Reachable s → s.file_count ≤ MAX_FILES) := by
  refine ⟨?_, ?_, reachable_file_count⟩
  · intro s s1 name data h
    obtain ⟨h1, _, _, h4⟩ := create_file_keeps_entries s s1 name data h
    exact ⟨h1, h4⟩
  · intro fuel s s1 name h
    obtain ⟨t, rfl⟩ := read_file_ok fuel s s1 name h
    exact ⟨rfl, rfl⟩


/-! ## The allocation loop: what it maintains -/

theorem create_loop_body (data : List Nat) (n i : Nat) (a : Alloc) :
    create_loop data (n + 1) i a =
      if find_free_block a.fat = -1 then .noSpace a
      else create_loop data n (i + 1) (loop_body data i a) := rfl

theorem FatOK_set (fat : List Int) (q : Nat) (v : Int) (h : FatOK fat)
    (hv : v = -1 ∨ ((q : Int) ≤ v ∧ v < NUM_BLOCKS)) : FatOK (fat.set q v) := by
  intro i w hw
  rw [List.getElem?_set] at hw
  by_cases hqi : q = i
  · subst hqi
    simp only [if_true] at hw
    by_cases hlen : q < fat.length
    · simp only [hlen, if_true, Option.some.injEq] at hw
      rw [← hw]
      exact hv
    · simp [hlen] at hw
  · simp only [hqi, if_false] at hw
    exact h i w hw

theorem Linked_nil (fat : List Int) (b p : Nat) : Linked fat b [] p ↔ b = p := Iff.rfl

theorem Linked_cons (fat : List Int) (b c : Nat) (cs : List Nat) (p : Nat) :
    Linked fat b (c :: cs) p ↔
      b = c ∧ ∃ next : Nat, c < next ∧ fat[c]? = some (next : Int) ∧ Linked fat next cs p :=
  Iff.rfl

theorem Linked_bounds (fat : List Int) (b : Nat) (bs : List Nat) (p : Nat)
    (h : Linked fat b bs p) : b ≤ p ∧ b + bs.length ≤ p ∧ ∀ c ∈ bs, c < p := by
  induction bs generalizing b with
  | nil =>
    simp only [Linked] at h
    subst h
    simp
  | cons c cs ih =>
    simp only [Linked] at h
    obtain ⟨rfl, next, hlt, _, hrest⟩ := h
    obtain ⟨h1, h2, h3⟩ := ih next hrest
    refine ⟨by omega, by simp only [List.length_cons]; omega, ?_⟩
    intro d hd
    rcases List.mem_cons.mp hd with rfl | hd
    · omega
    · exact h3 d hd

theorem Linked_set (fat : List Int) (b : Nat) (bs : List Nat) (p q : Nat) (v : Int)
    (h : Linked fat b bs p) (hq : p ≤ q) : Linked (fat.set q v) b bs p := by
  induction bs generalizing b with
  | nil => exact h
  | cons c cs ih =>
    simp only [Linked] at h ⊢
    obtain ⟨rfl, next, hlt, hget, hrest⟩ := h
    have hb := (Linked_bounds fat next cs p hrest).1
    refine ⟨rfl, next, hlt, ?_, ih next hrest⟩
    rw [List.getElem?_set_ne (by omega)]
    exact hget

theorem Linked_snoc (fat : List Int) (b : Nat) (bs : List Nat) (p q : Nat)
    (h : Linked fat b bs p) (hpq : p < q) (hget : fat[p]? = some (q : Int)) :
    Linked fat b (bs ++ [p]) q := by
  induction bs generalizing b with
  | nil =>
    have hb : b = p := h
    subst hb
    exact (Linked_cons fat b b [] q).mpr ⟨rfl, q, hpq, hget, (Linked_nil fat q q).mpr rfl⟩
  | cons c cs ih =>
    obtain ⟨rfl, next, hlt, hg, hrest⟩ := (Linked_cons fat b c cs p).mp h
    exact (Linked_cons fat b b (cs ++ [p]) q).mpr ⟨rfl, next, hlt, hg, ih next hrest⟩

/-- Blocks that lead to a block marked `-1` are the chain, that block last. -/
theorem chain_of_Linked (fat : List Int) (b : Nat) (bs : List Nat) (p : Nat) (fuel : Nat)
    (h : Linked fat b bs p) (hp : p < NUM_BLOCKS) (hend : fat[p]? = some (-1))
    (hfuel : bs.length + 1 ≤ fuel) : chain fat fuel (b : Int) = some (bs ++ [p]) := by
  induction bs generalizing b fuel with
  | nil =>
    simp only [Linked] at h
    subst h
    obtain ⟨m, rfl⟩ : ∃ m, fuel = m + 1 := ⟨fuel - 1, by simp at hfuel; omega⟩
    rw [chain_succ]
    have hne : ((b : Nat) : Int) ≠ -1 := by omega
    have hend2 : chain fat m (-1) = some [] := by
      cases m with
      | zero => rw [chain_zero]; simp
      | succ m => rw [chain_succ]; simp
    simp [hne, hp, hend, hend2]
  | cons c cs ih =>
    simp only [Linked] at h
    obtain ⟨rfl, next, hlt, hg, hrest⟩ := h
    obtain ⟨m, rfl⟩ : ∃ m, fuel = m + 1 := ⟨fuel - 1, by simp at hfuel; omega⟩
    have hb := (Linked_bounds fat next cs p hrest).1
    rw [chain_succ]
    have hne : ((b : Nat) : Int) ≠ -1 := by omega
    have hbr : b < NUM_BLOCKS := by omega
    have := ih next m hrest (by simp only [List.length_cons] at hfuel; omega)
    simp [hne, hbr, hg, this]

/-- One more iteration keeps `LoopInv`. -/
theorem LoopInv_body (data : List Nat) (i : Nat) (a : Alloc) (h : LoopInv a)
    (hfree : find_free_block a.fat ≠ -1) : LoopInv (loop_body data i a) := by
  obtain ⟨hok, hcase⟩ := h
  rcases find_free_block_cases a.fat with ⟨h1, _⟩ | ⟨k, hk1, hk2, hk3, hk4⟩
  · exact absurd h1 hfree
  have hkne : ((k : Nat) : Int) ≠ -1 := by omega
  rcases hcase with ⟨hp, hf⟩ | ⟨p, f, bs, hp, hf, hplt, hlow, hcur, hlink⟩
  · -- the first block
    refine ⟨by simpa [loop_body, hp] using hok, Or.inr ⟨k, k, [], ?_, ?_, hk1, ?_, ?_, ?_⟩⟩
    · simp [loop_body, hk2]
    · simp [loop_body, hk2, hf]
    · simpa [loop_body, hp] using hk4
    · left; simpa [loop_body, hp] using hk3
    · simp [Linked]
  · have hpne : ((p : Nat) : Int) ≠ -1 := by omega
    have hfne : ((f : Nat) : Int) ≠ -1 := by omega
    have hfat : (loop_body data i a).fat = a.fat.set p (k : Int) := by
      simp [loop_body, hp, hpne, hk2]
    have hplen : p < a.fat.length := by
      rcases hcur with hc | hc
      · exact (List.getElem?_eq_some_iff.mp hc).1
      · exact (List.getElem?_eq_some_iff.mp hc).1
    have hpk : p ≤ k := by
      rcases Nat.lt_or_ge k p with hlt | hge
      · exact absurd hk3 (hlow k hlt)
      · exact hge
    refine ⟨?_, Or.inr ?_⟩
    · rw [hfat]
      exact FatOK_set _ _ _ hok (Or.inr ⟨by omega, by simpa using hk1⟩)
    · rcases hcur with hc | hc
      · -- the block found last is found again
        have hkp : k = p := by
          rcases Nat.lt_or_ge p k with hlt | hge
          · exact absurd hc (hk4 p hlt)
          · omega
        subst hkp
        refine ⟨k, f, bs, by simp [loop_body, hk2], by simp [loop_body, hf, hfne], hk1, ?_, ?_, ?_⟩
        · intro j hj
          rw [hfat, List.getElem?_set_ne (by omega)]
          exact hlow j hj
        · right
          rw [hfat, List.getElem?_set_self hplen]
        · rw [hfat]
          exact Linked_set _ _ _ _ _ _ hlink (le_refl _)
      · -- a new block
        have hkp : p < k := by
          rcases Nat.lt_or_ge p k with hlt | hge
          · exact hlt
          · have : k = p := by omega
            subst this
            rw [hc] at hk3
            simp only [Option.some.injEq] at hk3
            omega
        refine ⟨k, f, bs ++ [p], by simp [loop_body, hk2], by simp [loop_body, hf, hfne], hk1,
          ?_, ?_, ?_⟩
        · intro j hj
          rw [hfat]
          by_cases hjp : j = p
          · subst hjp
            rw [List.getElem?_set_self hplen]
            simp only [ne_eq, Option.some.injEq]
            omega
          · rw [List.getElem?_set_ne (by omega)]
            exact hk4 j hj
        · left
          rw [hfat, List.getElem?_set_ne (by omega)]
          exact hk3
        · rw [hfat]
          exact Linked_snoc _ _ _ _ _ (Linked_set _ _ _ _ _ _ hlink (le_refl _)) hkp
            (List.getElem?_set_self hplen)

/-- The loop keeps `LoopInv`, however it ends; when it ends early, no block
is free. -/
theorem LoopInv_create_loop (data : List Nat) (n i : Nat) (a a1 : Alloc) (h : LoopInv a) :
    (create_loop data n i a = .done a1 → LoopInv a1) ∧
    (create_loop data n i a = .noSpace a1 → LoopInv a1 ∧ find_free_block a1.fat = -1) := by
  induction n generalizing i a with
  | zero =>
    constructor
    · intro h1
      simp only [create_loop, LoopRes.done.injEq] at h1
      exact h1 ▸ h
    · intro h1
      simp [create_loop] at h1
  | succ n ih =>
    rw [create_loop_body]
    by_cases hb : find_free_block a.fat = -1
    · rw [if_pos hb]
      constructor
      · intro h1
        cases h1
      · intro h1
        simp only [LoopRes.noSpace.injEq] at h1
        subst h1
        exact ⟨h, hb⟩
    · rw [if_neg hb]
      exact ih _ _ (LoopInv_body data i a h hb)


/-! ## What holds of every reachable state -/

theorem write_block_length (disk : List Nat) (off : Nat) (src : List Nat)
    (h : off + BLOCK_SIZE ≤ disk.length) : (write_block disk off src).length = disk.length := by
  unfold write_block
  simp only [List.length_append, List.length_take, List.length_drop, strncpy_length]
  omega

/-- A property of the loop variables that every iteration keeps holds when
the loop ends. -/
theorem create_loop_induct (P : Alloc → Prop) (data : List Nat)
    (hstep : ∀ i a, P a → find_free_block a.fat ≠ -1 → P (loop_body data i a))
    (n i : Nat) (a a1 : Alloc) (h : P a) :
    (create_loop data n i a = .done a1 → P a1) ∧
    (create_loop data n i a = .noSpace a1 → P a1) := by
  induction n generalizing i a with
  | zero =>
    constructor
    · intro h1
      simp only [create_loop, LoopRes.done.injEq] at h1
      exact h1 ▸ h
    · intro h1
      simp [create_loop] at h1
  | succ n ih =>
    rw [create_loop_body]
    by_cases hb : find_free_block a.fat = -1
    · rw [if_pos hb]
      constructor
      · intro h1
        cases h1
      · intro h1
        simp only [LoopRes.noSpace.injEq] at h1
        exact h1 ▸ h
    · rw [if_neg hb]
      exact ih _ _ (hstep i a h hb)

/-- The loop keeps the sizes of the allocation table and of the disk. -/
theorem create_loop_lengths (data : List Nat) (n i : Nat) (a a1 : Alloc)
    (h : a.fat.length = NUM_BLOCKS ∧ a.disk.length = DISK_SIZE) :
    (create_loop data n i a = .done a1 → a1.fat.length = NUM_BLOCKS ∧ a1.disk.length = DISK_SIZE) ∧
    (create_loop data n i a = .noSpace a1 →
      a1.fat.length = NUM_BLOCKS ∧ a1.disk.length = DISK_SIZE) := by
  refine create_loop_induct (fun a => a.fat.length = NUM_BLOCKS ∧ a.disk.length = DISK_SIZE)
    data ?_ n i a a1 h
  intro i a ⟨hf, hd⟩ hfree
  rcases find_free_block_cases a.fat with ⟨h1, _⟩ | ⟨k, hk1, hk2, _, _⟩
  · exact absurd h1 hfree
  constructor
  · simp only [loop_body]
    split <;> simp [hf]
  · simp only [loop_body, hk2, Int.toNat_ofNat]
    rw [write_block_length, hd]
    rw [hd]
    unfold NUM_BLOCKS DISK_SIZE BLOCK_SIZE at *
    omega

theorem LoopInv_start (fat : List Int) (disk : List Nat) (h : FatOK fat) :
    LoopInv ⟨fat, disk, -1, -1⟩ := ⟨h, Or.inl ⟨rfl, rfl⟩⟩

theorem Inv_initialize_filesystem (s0 : FS) : Inv (initialize_filesystem s0) := by
  refine ⟨by simp [FS.WF, initialize_filesystem, kprint], Nat.zero_le _, ?_, ?_⟩
  · intro i v hv
    left
    simp only [initialize_filesystem, kprint] at hv
    have := List.getElem?_mem hv
    exact List.eq_of_mem_replicate this
  · intro f hf
    simp only [initialize_filesystem, kprint] at hf
    rw [List.eq_of_mem_replicate hf]
    simp [File.zero, NUM_BLOCKS, DISK_SIZE, BLOCK_SIZE]

theorem Inv_create_file (s s1 : FS) (name data : List Nat) (hinv : Inv s)
    (h : create_file s name data = .ok s1) : Inv s1 := by
  obtain ⟨⟨hdisk, hfat, hfiles⟩, hcount, hok, hstart⟩ := hinv
  rcases create_file_ok_cases s s1 name data h with
    ⟨_, rfl⟩ | ⟨_, a, hloop, rfl⟩ | ⟨hlt, a, f, hloop, hp0, hp1, _, _, rfl⟩
  · exact ⟨⟨hdisk, hfat, hfiles⟩, hcount, hok, hstart⟩
  · have hl := (create_loop_lengths data _ 0 _ a ⟨hfat, hdisk⟩).2 hloop
    have hi := ((LoopInv_create_loop data _ 0 _ a (LoopInv_start s.fat s.disk hok)).2 hloop).1
    exact ⟨⟨hl.2, hl.1, hfiles⟩, hcount, hi.1, hstart⟩
  · have hl := (create_loop_lengths data _ 0 _ a ⟨hfat, hdisk⟩).1 hloop
    have hi := (LoopInv_create_loop data _ 0 _ a (LoopInv_start s.fat s.disk hok)).1 hloop
    obtain ⟨hok1, hcase⟩ := hi
    refine ⟨⟨hl.2, by simp [kprint, hl.1], by simp [kprint, hfiles]⟩, hlt,
      FatOK_set _ _ _ hok1 (Or.inl rfl), ?_⟩
    intro g hg
    simp only [kprint] at hg
    rcases List.mem_or_eq_of_mem_set hg with hg | rfl
    · exact hstart g hg
    · rcases hcase with ⟨hp, _⟩ | ⟨p, f1, bs, _, hf1, hplt, _, _, hlink⟩
      · rw [hp] at hp0
        omega
      · have := (Linked_bounds _ _ _ _ hlink).1
        simp only [hf1]
        omega

theorem reachable_Inv (s : FS) (hs : Reachable s) : Inv s := by
  induction hs with
  | init s0 => exact Inv_initialize_filesystem s0
  | create s s1 name data _ hc ih => exact Inv_create_file s s1 name data ih hc

/-- With a table as `FatOK` says, the read loop never leaves the arrays. -/
theorem read_chain_no_fault (fat : List Int) (disk : List Nat) (fuel : Nat) (block : Int)
    (s : FS) (hok : FatOK fat) (hlen : fat.length = NUM_BLOCKS)
    (hb : block = -1 ∨ (0 ≤ block ∧ block < NUM_BLOCKS)) :
    read_chain fat disk fuel block s ≠ .fault := by
  induction fuel generalizing block s with
  | zero =>
    rw [read_chain_zero]
    split <;> simp
  | succ fuel ih =>
    rw [read_chain_succ]
    by_cases h1 : block = -1
    · simp [h1]
    · rcases hb with hb | hb
      · exact absurd hb h1
      · simp only [h1, if_false, hb, and_self, if_true]
        have hlt : block.toNat < fat.length := by
          rw [hlen]
          omega
        rw [List.getElem?_eq_getElem hlt]
        simp only
        apply ih
        rcases hok block.toNat _ (List.getElem?_eq_getElem hlt) with h2 | h2
        · exact Or.inl h2
        · right
          refine ⟨?_, h2.2⟩
          have : (0 : Int) ≤ (block.toNat : Int) := Int.ofNat_nonneg _
          omega

theorem read_file_from_no_fault (fuel : Nat) (s : FS) (name : List Nat) (n i : Nat)
    (hinv : Inv s) (hlen : i + n ≤ s.files.length) :
    read_file_from fuel s name n i ≠ .fault := by
  induction n generalizing i with
  | zero => simp [read_file_from]
  | succ n ih =>
    have hi : i < s.files.length := by omega
    simp only [read_file_from, List.getElem?_eq_getElem hi]
    by_cases hm : strcmp s.files[i].name name = 0
    · simp only [hm, if_true, read_entry]
      have hstart := hinv.2.2.2 s.files[i] (List.getElem_mem hi)
      have := read_chain_no_fault s.fat s.disk fuel s.files[i].start_block
        (kprint s MSG_CONTENTS) hinv.2.2.1 hinv.1.2.1 (Or.inr hstart)
      cases hc : read_chain s.fat s.disk fuel s.files[i].start_block (kprint s MSG_CONTENTS) with
      | ok s1 => simp
      | fault => exact absurd hc this
      | timeout => simp
    · simp only [hm, if_false]
      exact ih (i + 1) (by omega)

theorem read_file_no_fault (fuel : Nat) (s : FS) (name : List Nat) (hinv : Inv s) :
    read_file fuel s name ≠ .fault := by
  unfold read_file
  apply read_file_from_no_fault fuel s name _ _ hinv
  have := hinv.1.2.2
  have := hinv.2.1
  omega

theorem create_file_no_fault (s : FS) (name data : List Nat) (hinv : Inv s)
    (hname : strlen name ≤ 15) (hdata : 0 < strlen data)
    (hsize : strlen data + BLOCK_SIZE - 1 ≤ INT_MAX) :
    create_file s name data ≠ .fault := by
  by_cases hfull : MAX_FILES ≤ s.file_count
  · rw [create_file_limit s name data hfull]
    simp
  · have hlt : s.file_count < MAX_FILES := by omega
    obtain ⟨n, hn⟩ := blocks_needed_pos (strlen data) hdata
    have h1 : ¬ s.file_count ≥ MAX_FILES := by omega
    have h2 : ¬ strlen data + BLOCK_SIZE - 1 > INT_MAX := by omega
    have hfc : s.file_count < s.files.length := by rw [hinv.1.2.2]; exact hlt
    cases hloop : create_loop data (blocks_needed (strlen data)) 0 ⟨s.fat, s.disk, -1, -1⟩ with
    | noSpace a =>
      unfold blocks_needed at hloop
      simp [create_file, h1, h2, hloop]
    | done a =>
      have hd := hloop
      rw [hn] at hd
      obtain ⟨_, _, hp0, hp1⟩ := create_loop_done data n 0 _ a hd
      rw [create_file_done s name data a s.files[s.file_count] hlt hsize hloop ⟨hp0, hp1⟩
        (List.getElem?_eq_getElem hfc) (by omega)]
      simp

/-- C20: in every state reachable from `initialize_filesystem`, every entry
of the allocation table is `-1` or a block index `v` with `i ≤ v` and
`v < NUM_BLOCKS`, and every `start_block` of the directory is in
`0..NUM_BLOCKS-1`; consequently `read_file` never leaves the arrays, and
neither does `create_file` for a name of at most 15 characters and a
non-empty content (whose length fits an `int`); the blocks that its loop
indexes are results of `find_free_block`, which are block indices. -/
theorem reachable_indices_in_range (s : FS) (hs : Reachable s) :
    (∀ (i : Nat) (v : Int), s.fat[i]? = some v → v = -1 ∨ ((i : Int) ≤ v ∧ v < NUM_BLOCKS)) ∧
    (∀ f ∈ s.files, 0 ≤ f.start_block ∧ f.start_block < NUM_BLOCKS) ∧
    (∀ (fuel : Nat) (name : List Nat), read_file fuel s name ≠ .fault) ∧
    (∀ name data : List Nat, strlen name ≤ 15 → 0 < strlen data →
      strlen data + BLOCK_SIZE - 1 ≤ INT_MAX → create_file s name data ≠ .fault) ∧
    (∀ fat : List Int, find_free_block fat = -1 ∨
      (0 ≤ find_free_block fat ∧ find_free_block fat < NUM_BLOCKS)) := by
  have hinv := reachable_Inv s hs
  refine ⟨hinv.2.2.1, hinv.2.2.2, fun fuel name => read_file_no_fault fuel s name hinv,
    fun name data h1 h2 h3 => create_file_no_fault s name data hinv h1 h2 h3, ?_⟩
  intro fat
  rcases find_free_block_cases fat with ⟨h1, _⟩ | ⟨k, hk1, hk2, _, _⟩
  · exact Or.inl h1
  · right
    rw [hk2]
    omega


/-! ## The last block of a new chain stays free -/

theorem find_free_block_eq (fat : List Int) (i : Nat) (hi : i < NUM_BLOCKS)
    (hfree : fat[i]? = some (-1)) (hlow : ∀ j, j < i → fat[j]? ≠ some (-1)) :
    find_free_block fat = (i : Int) := by
  rcases find_free_block_cases fat with ⟨_, h2⟩ | ⟨k, hk1, hk2, hk3, hk4⟩
  · exact absurd hfree (h2 i hi)
  · have : i = k := by
      rcases Nat.lt_trichotomy i k with h | h | h
      · exact absurd hfree (hk4 i h)
      · exact h
      · exact absurd hk3 (hlow k h)
    rw [hk2, this]

theorem block_bytes_congr (d1 d2 : List Nat) (b : Nat)
    (h : ∀ j, b * BLOCK_SIZE ≤ j → j < b * BLOCK_SIZE + BLOCK_SIZE → d1[j]? = d2[j]?) :
    block_bytes d1 b = block_bytes d2 b := by
  apply List.ext_getElem?
  intro j
  unfold block_bytes
  by_cases hj : j < BLOCK_SIZE
  · rw [List.getElem?_take_of_lt hj, List.getElem?_take_of_lt hj, List.getElem?_drop,
      List.getElem?_drop]
    exact h _ (by omega) (by omega)
  · rw [List.getElem?_take_eq_none (by omega), List.getElem?_take_eq_none (by omega)]

theorem write_block_getElem?_of_lt (disk : List Nat) (off : Nat) (src : List Nat) (j : Nat)
    (hoff : off ≤ disk.length) (hj : j < off) : (write_block disk off src)[j]? = disk[j]? := by
  unfold write_block
  have h1 : (List.take off disk).length = off := by simp [List.length_take, hoff]
  rw [List.append_assoc, List.getElem?_append_left (by omega), List.getElem?_take_of_lt hj]

theorem write_block_getElem?_of_ge (disk : List Nat) (off : Nat) (src : List Nat) (j : Nat)
    (hoff : off ≤ disk.length) (hj : off + BLOCK_SIZE ≤ j) :
    (write_block disk off src)[j]? = disk[j]? := by
  unfold write_block
  have h1 : (List.take off disk ++ strncpy src BLOCK_SIZE).length = off + BLOCK_SIZE := by
    simp [List.length_take, hoff, strncpy_length]
  rw [List.getElem?_append_right (by omega), h1, List.getElem?_drop]
  congr 1
  omega

/-- Writing a block leaves the bytes of every other block. -/
theorem block_bytes_write_block_ne (disk : List Nat) (k c : Nat) (src : List Nat)
    (hlen : disk.length = DISK_SIZE) (hk : k < NUM_BLOCKS) (hck : c ≠ k) :
    block_bytes (write_block disk (k * BLOCK_SIZE) src) c = block_bytes disk c := by
  apply block_bytes_congr
  intro j h1 h2
  have hoff : k * BLOCK_SIZE ≤ disk.length := by
    rw [hlen]
    unfold NUM_BLOCKS DISK_SIZE BLOCK_SIZE at *
    omega
  rcases Nat.lt_or_gt_of_ne hck with h | h
  · apply write_block_getElem?_of_lt _ _ _ _ hoff
    unfold BLOCK_SIZE at *
    omega
  · apply write_block_getElem?_of_ge _ _ _ _ hoff
    unfold BLOCK_SIZE at *
    omega

/-- The block just written holds what `strncpy` stored. -/
theorem block_bytes_write_block (disk : List Nat) (b : Nat) (src : List Nat)
    (h : b * BLOCK_SIZE ≤ disk.length) :
    block_bytes (write_block disk (b * BLOCK_SIZE) src) b = strncpy src BLOCK_SIZE := by
  unfold block_bytes write_block
  have h1 : (List.take (b * BLOCK_SIZE) disk).length = b * BLOCK_SIZE := by
    simp [List.length_take, h]
  rw [List.append_assoc, List.drop_append_eq_append_drop, h1]
  simp only [Nat.sub_self, List.drop_zero]
  rw [List.drop_eq_nil_of_le (le_of_eq h1), List.nil_append, List.take_append_eq_append_take,
    strncpy_length]
  simp only [Nat.sub_self, List.take_zero, List.append_nil]
  exact List.take_of_length_le (le_of_eq (strncpy_length _ _))

/-- Once every entry up to block `c` is in use, the loop does not write
block `c` any more. -/
theorem create_loop_frame (data : List Nat) (c : Nat) (bytes : List Nat) (n i : Nat)
    (a a1 : Alloc)
    (h : (∀ j, j ≤ c → a.fat[j]? ≠ some (-1)) ∧ a.disk.length = DISK_SIZE ∧
      block_bytes a.disk c = bytes)
    (hend : create_loop data n i a = .done a1 ∨ create_loop data n i a = .noSpace a1) :
    block_bytes a1.disk c = bytes := by
  have key := create_loop_induct (fun a => (∀ j, j ≤ c → a.fat[j]? ≠ some (-1)) ∧
    a.disk.length = DISK_SIZE ∧ block_bytes a.disk c = bytes) data ?_ n i a a1 h
  · rcases hend with hd | hn
    · exact (key.1 hd).2.2
    · exact (key.2 hn).2.2
  intro i a ⟨hlow, hlen, hbytes⟩ hfree
  rcases find_free_block_cases a.fat with ⟨h1, _⟩ | ⟨k, hk1, hk2, hk3, _⟩
  · exact absurd h1 hfree
  have hck : c < k := by
    rcases Nat.lt_or_ge c k with hlt | hge
    · exact hlt
    · exact absurd hk3 (hlow k hge)
  have hkne : ((k : Nat) : Int) ≠ -1 := by omega
  refine ⟨?_, ?_, ?_⟩
  · intro j hj
    simp only [loop_body, hk2]
    split
    · rw [List.getElem?_set]
      split
      · split
        · simp only [ne_eq, Option.some.injEq]
          exact hkne
        · simp
      · exact hlow j hj
    · exact hlow j hj
  · simp only [loop_body, hk2, Int.toNat_ofNat]
    rw [write_block_length, hlen]
    rw [hlen]
    unfold NUM_BLOCKS DISK_SIZE BLOCK_SIZE at *
    omega
  · simp only [loop_body, hk2, Int.toNat_ofNat]
    rw [block_bytes_write_block_ne _ _ _ _ hlen hk1 (by omega)]
    exact hbytes

/-- The bytes that a call of `create_file` with `n + 1` blocks needed leaves in
the block that was the lowest free one, whether the loop runs to its end or
returns early: those of the second chunk when there is one, since that block
is found twice. -/
theorem create_loop_first_bytes (data : List Nat) (fat : List Int) (disk : List Nat)
    (n b : Nat) (a1 : Alloc) (hlen : disk.length = DISK_SIZE) (hb : b < NUM_BLOCKS)
    (hfree : fat[b]? = some (-1)) (hlow : ∀ j, j < b → fat[j]? ≠ some (-1))
    (hend : create_loop data (n + 1) 0 ⟨fat, disk, -1, -1⟩ = .done a1 ∨
      create_loop data (n + 1) 0 ⟨fat, disk, -1, -1⟩ = .noSpace a1) :
    block_bytes a1.disk b =
      strncpy (data.drop (if n + 1 = 1 then 0 else BLOCK_SIZE)) BLOCK_SIZE := by
  have hfind : find_free_block fat = (b : Int) := find_free_block_eq fat b hb hfree hlow
  have hbne : ((b : Nat) : Int) ≠ -1 := by omega
  have hoff : b * BLOCK_SIZE + BLOCK_SIZE ≤ disk.length := by
    rw [hlen]
    unfold NUM_BLOCKS DISK_SIZE BLOCK_SIZE at *
    omega
  rw [create_loop_body] at hend
  simp only [hfind, hbne, if_false] at hend
  have hbody : loop_body data 0 ⟨fat, disk, -1, -1⟩ =
      ⟨fat, write_block disk (b * BLOCK_SIZE) data, (b : Int), (b : Int)⟩ := by
    simp [loop_body, hfind]
  rw [hbody] at hend
  have hlen1 : (write_block disk (b * BLOCK_SIZE) data).length = DISK_SIZE := by
    rw [write_block_length _ _ _ hoff, hlen]
  cases n with
  | zero =>
    have hd : a1 = ⟨fat, write_block disk (b * BLOCK_SIZE) data, (b : Int), (b : Int)⟩ := by
      rcases hend with hd | hn
      · simp only [create_loop, LoopRes.done.injEq] at hd
        exact hd.symm
      · simp [create_loop] at hn
    subst hd
    simp only [Nat.zero_add, if_true, List.drop_zero]
    exact block_bytes_write_block _ _ _ (by omega)
  | succ n =>
    rw [create_loop_body] at hend
    simp only [hfind, hbne, if_false] at hend
    have hbody2 : loop_body data (0 + 1)
        ⟨fat, write_block disk (b * BLOCK_SIZE) data, (b : Int), (b : Int)⟩ =
        ⟨fat.set b (b : Int),
          write_block (write_block disk (b * BLOCK_SIZE) data) (b * BLOCK_SIZE)
            (data.drop BLOCK_SIZE), (b : Int), (b : Int)⟩ := by
      simp [loop_body, hfind, hbne]
    rw [hbody2] at hend
    have hif : (if n + 1 + 1 = 1 then 0 else BLOCK_SIZE) = BLOCK_SIZE := by
      rw [if_neg (by omega)]
    rw [hif]
    refine create_loop_frame data b _ n _ _ a1 ⟨?_, ?_, ?_⟩ hend
    · intro j hj
      simp only
      by_cases hjb : j = b
      · subst hjb
        rw [List.getElem?_set_self (List.getElem?_eq_some_iff.mp hfree).1]
        simp only [ne_eq, Option.some.injEq]
        exact hbne
      · rw [List.getElem?_set_ne (by omega)]
        exact hlow j (by omega)
    · simp only
      rw [write_block_length _ _ _ (by rw [hlen1]; rw [hlen] at hoff; exact hoff), hlen1]
    · simp only
      exact block_bytes_write_block _ _ _ (by rw [hlen1]; rw [hlen] at hoff; omega)

/-- A call that printed the success message went through the whole routine. -/
theorem create_file_created_cases (s s1 : FS) (name data : List Nat)
    (h : create_file s name data = .ok s1) (hmsg : s1.screen = s.screen ++ MSG_CREATED) :
    s.file_count < MAX_FILES ∧ ∃ a f,
      create_loop data (blocks_needed (strlen data)) 0 ⟨s.fat, s.disk, -1, -1⟩ = .done a ∧
      0 ≤ a.prev_block ∧ a.prev_block < NUM_BLOCKS ∧
      s.files[s.file_count]? = some f ∧ strlen name < 16 ∧
      s1 = kprint
        { disk := a.disk
          fat := a.fat.set a.prev_block.toNat (-1)
          files := s.files.set s.file_count ⟨strcpy f.name name, a.first_block, (strlen data : Int)⟩
          file_count := s.file_count + 1
          screen := s.screen }
        MSG_CREATED := by
  rcases create_file_ok_cases s s1 name data h with ⟨_, rfl⟩ | ⟨_, a, _, rfl⟩ | h3
  · exfalso
    rw [kprint_screen, cstr_MSG_FILE_LIMIT] at hmsg
    have := List.append_cancel_left hmsg
    revert this
    decide
  · exfalso
    rw [kprint_screen, cstr_MSG_NO_SPACE] at hmsg
    have := List.append_cancel_left hmsg
    revert this
    decide
  · exact h3

theorem create_file_ne_timeout (s : FS) (name data : List Nat) :
    create_file s name data ≠ .timeout := by
  unfold create_file
  by_cases hfull : s.file_count ≥ MAX_FILES
  · simp [hfull]
  · simp only [hfull, if_false]
    by_cases hov : strlen data + BLOCK_SIZE - 1 > INT_MAX
    · simp [hov]
    · simp only [hov, if_false]
      cases hloop : create_loop data ((strlen data + BLOCK_SIZE - 1) / BLOCK_SIZE) 0
          ⟨s.fat, s.disk, -1, -1⟩ with
      | noSpace a => simp
      | done a =>
        simp only
        by_cases hprev : 0 ≤ a.prev_block ∧ a.prev_block < NUM_BLOCKS
        · simp only [hprev, and_self, if_true]
          cases hf : s.files[s.file_count]? with
          | none => simp
          | some f =>
            simp only
            by_cases hname : strlen name < 16
            · simp [hname]
            · simp [hname]
        · simp [hprev]

/-- C17: after every call of `create_file` that prints the success message (its
content is then non-empty: with an empty one the routine writes `fat[-1]`),
in any state reachable from `initialize_filesystem`, the chain of the new
entry ends with a block `b` whose entry in the allocation table is still
`-1`, the free sentinel, and `find_free_block` returns exactly `b`.  So the
next `create_file` of non-empty content, when the directory is not full,
leaves in block `b` bytes of its own content (the second chunk when it needs
more than one block, since it finds `b` twice), whether it prints the success
message, and then its entry has the start block `b`, or the out-of-space
error; and it does return for a name of at most 15 characters (and a length
that fits an `int`).  When the directory is full the next call prints the
file-limit error and changes nothing else. -/
theorem create_file_last_block_free (s s1 : FS) (name data : List Nat)
    (hs : Reachable s)
    (h : create_file s name data = .ok s1) (hmsg : s1.screen = s.screen ++ MSG_CREATED) :
    ∃ (f : File) (bs : List Nat) (b : Nat),
      s1.files[s.file_count]? = some f ∧
      chain s1.fat NUM_BLOCKS f.start_block = some (bs ++ [b]) ∧
      s1.fat[b]? = some (-1) ∧ find_free_block s1.fat = (b : Int) ∧
      ∀ (name2 data2 : List Nat), 0 < strlen data2 →
        (s1.file_count < MAX_FILES →
          (∀ s2 : FS, create_file s1 name2 data2 = .ok s2 →
            (s2.screen = s1.screen ++ MSG_CREATED ∨ s2.screen = s1.screen ++ MSG_NO_SPACE) ∧
            block_bytes s2.disk b =
              strncpy (data2.drop (if blocks_needed (strlen data2) = 1 then 0 else BLOCK_SIZE))
                BLOCK_SIZE ∧
            (s2.screen = s1.screen ++ MSG_CREATED →
              ∃ g, s2.files[s1.file_count]? = some g ∧ g.start_block = (b : Int))) ∧
          (strlen name2 ≤ 15 → strlen data2 + BLOCK_SIZE - 1 ≤ INT_MAX →
            ∃ s2 : FS, create_file s1 name2 data2 = .ok s2)) ∧
        (MAX_FILES ≤ s1.file_count →
          create_file s1 name2 data2 =
            .ok { s1 with screen := s1.screen ++ MSG_FILE_LIMIT }) := by
  have hinv := reachable_Inv s hs
  have hinv1 := reachable_Inv s1 (Reachable.create s s1 name data hs h)
  obtain ⟨_, a, f0, hloop, hp0, _, hf0, _, hs1⟩ := create_file_created_cases s s1 name data h hmsg
  have hli := (LoopInv_create_loop data _ 0 _ a (LoopInv_start s.fat s.disk hinv.2.2.1)).1 hloop
  obtain ⟨_, hcase⟩ := hli
  rcases hcase with ⟨hp, _⟩ | ⟨p, f, bs, hp, hf, hplt, hlow, hcur, hlink⟩
  · rw [hp] at hp0
    omega
  have hfat1 : s1.fat = a.fat.set p (-1) := by
    rw [hs1]
    simp [kprint, hp]
  have hplen : p < a.fat.length := by
    rcases hcur with hc | hc
    · exact (List.getElem?_eq_some_iff.mp hc).1
    · exact (List.getElem?_eq_some_iff.mp hc).1
  have hfc : s.file_count < s.files.length := by
    rcases Nat.lt_or_ge s.file_count s.files.length with h1 | h1
    · exact h1
    · rw [List.getElem?_eq_none h1] at hf0
      cases hf0
  have hfree1 : s1.fat[p]? = some (-1) := by
    rw [hfat1, List.getElem?_set_self hplen]
  have hlow1 : ∀ j, j < p → s1.fat[j]? ≠ some (-1) := by
    intro j hj
    rw [hfat1, List.getElem?_set_ne (by omega)]
    exact hlow j hj
  have hfind1 : find_free_block s1.fat = (p : Int) := find_free_block_eq _ p hplt hfree1 hlow1
  refine ⟨⟨strcpy f0.name name, a.first_block, (strlen data : Int)⟩, bs, p, ?_, ?_, hfree1,
    hfind1, ?_⟩
  · rw [hs1]
    simp only [kprint]
    rw [List.getElem?_set_self hfc]
  · simp only [hf]
    apply chain_of_Linked _ _ _ _ _ _ hplt hfree1
    · have := (Linked_bounds _ _ _ _ hlink).2.1
      omega
    · rw [hfat1]
      exact Linked_set _ _ _ _ _ _ hlink (le_refl _)
  · intro name2 data2 hdata2
    obtain ⟨n2, hn2⟩ := blocks_needed_pos (strlen data2) hdata2
    refine ⟨fun hroom2 => ⟨?_, ?_⟩, fun hfull2 => ?_⟩
    · intro s2 h2
      rcases create_file_ok_cases s1 s2 name2 data2 h2 with
        ⟨hfull, _⟩ | ⟨_, a2, hloop2, hs2⟩ | ⟨_, a2, g0, hloop2, _, _, hg0, _, hs2⟩
      · omega
      · -- the out-of-space return
        rw [hn2] at hloop2
        have hbytes := create_loop_first_bytes data2 s1.fat s1.disk n2 p a2 hinv1.1.1 hplt
          hfree1 hlow1 (Or.inr hloop2)
        have hscreen : s2.screen = s1.screen ++ MSG_NO_SPACE := by
          rw [hs2]
          simp [kprint, cstr_MSG_NO_SPACE]
        refine ⟨Or.inr hscreen, ?_, ?_⟩
        · rw [hn2, hs2]
          simp only [kprint]
          exact hbytes
        · intro hmsg2
          exfalso
          rw [hscreen] at hmsg2
          have := List.append_cancel_left hmsg2
          revert this
          decide
      · -- the whole routine
        have hfc1 : s1.file_count < s1.files.length := by
          rcases Nat.lt_or_ge s1.file_count s1.files.length with h1 | h1
          · exact h1
          · rw [List.getElem?_eq_none h1] at hg0
            cases hg0
        rw [hn2] at hloop2
        obtain ⟨_, hfirst2, _, _⟩ := create_loop_done data2 n2 0 _ a2 hloop2
        have hfirst2 := hfirst2 rfl
        simp only at hfirst2
        have hbytes := create_loop_first_bytes data2 s1.fat s1.disk n2 p a2 hinv1.1.1 hplt
          hfree1 hlow1 (Or.inl hloop2)
        have hscreen : s2.screen = s1.screen ++ MSG_CREATED := by
          rw [hs2]
          simp [kprint, cstr_MSG_CREATED]
        refine ⟨Or.inl hscreen, ?_, fun _ => ?_⟩
        · rw [hn2, hs2]
          simp only [kprint]
          exact hbytes
        · refine ⟨⟨strcpy g0.name name2, a2.first_block, (strlen data2 : Int)⟩, ?_, ?_⟩
          · rw [hs2]
            simp only [kprint]
            rw [List.getElem?_set_self hfc1]
          · simp only [hfirst2, hfind1]
    · intro hname2 hsize2
      have hnf := create_file_no_fault s1 name2 data2 hinv1 hname2 hdata2 hsize2
      cases hc : create_file s1 name2 data2 with
      | ok s2 => exact ⟨s2, rfl⟩
      | fault => exact absurd hc hnf
      | timeout => exact absurd hc (create_file_ne_timeout s1 name2 data2)
    · rw [create_file_limit s1 name2 data2 hfull2, kprint, cstr_MSG_FILE_LIMIT]


/-! ## The tokenizer -/

theorem str_space : str " " = [32] := by decide

theorem str_empty : str "" = [] := by decide

theorem strchr_space (c : Nat) : strchr [32] c = decide (c = 32) := by
  by_cases h : c = 32
  · subst h
    simp [strchr]
  · have h2 : ¬ 32 = c := fun e => h e.symm
    simp [strchr, h, h2]

theorem strchr_nil (c : Nat) : strchr [] c = false := rfl

theorem skip_delims_spaces (n : Nat) (l : List Nat) :
    skip_delims [32] (List.replicate n 32 ++ l) = skip_delims [32] l := by
  induction n with
  | zero => simp
  | succ n ih =>
    rw [List.replicate_succ, List.cons_append, skip_delims]
    simp [strchr_space, ih]

theorem skip_delims_nil : skip_delims [32] [] = [] := rfl

theorem skip_delims_cons (c : Nat) (cs : List Nat) (h : c ≠ 32) :
    skip_delims [32] (c :: cs) = c :: cs := by
  rw [skip_delims]
  simp [strchr_space, h]

theorem skip_delims_no_delim (l : List Nat) : skip_delims [] l = l := by
  cases l with
  | nil => rfl
  | cons c cs =>
    rw [skip_delims]
    simp [strchr_nil]

/-- A token without space and terminator is passed over up to the space or
the end that follows it. -/
theorem scan_token_space (tok tl : List Nat) (htok : ∀ c ∈ tok, c ≠ 32 ∧ c ≠ 0)
    (htl : tl = [] ∨ ∃ r, tl = 32 :: r) : scan_token [32] (tok ++ tl) = (tok, tl) := by
  induction tok with
  | nil =>
    rcases htl with rfl | ⟨r, rfl⟩
    · rfl
    · rw [List.nil_append, scan_token]
      simp [strchr_space]
  | cons c cs ih =>
    have hc := htok c (List.mem_cons_self _ _)
    have ih := ih (fun d hd => htok d (List.mem_cons_of_mem _ hd))
    rw [List.cons_append, scan_token]
    simp [strchr_space, hc.1, hc.2, ih]

/-- With no delimiter the scan stops at the terminator only. -/
theorem scan_token_no_delim (l : List Nat) : peek (scan_token [] l).2 = 0 := by
  induction l with
  | nil => rfl
  | cons c cs ih =>
    rw [scan_token]
    by_cases hc : c = 0
    · simp [hc, peek]
    · simp [hc, strchr_nil, ih]

theorem peek_cons (c : Nat) (cs : List Nat) : peek (c :: cs) = c := rfl

theorem peek_nil : peek [] = 0 := rfl

theorem peek_replicate_append (n : Nat) (l : List Nat) (h : 0 < n) :
    peek (List.replicate n 32 ++ l) = 32 := by
  obtain ⟨m, rfl⟩ : ∃ m, n = m + 1 := ⟨n - 1, by omega⟩
  rfl

theorem strlen_pos_iff_peek (l : List Nat) : 0 < strlen l ↔ peek l ≠ 0 := by
  cases l with
  | nil => simp [strlen, cstr, peek]
  | cons c cs =>
    by_cases hc : c = 0
    · simp [strlen, cstr, peek, hc]
    · simp [strlen, cstr, peek, hc]

theorem strtok_some_eq (last : Option (List Nat)) (p delim : List Nat) :
    strtok last (some p) delim =
      if peek p = 0 then (none, some p)
      else if peek (skip_delims delim p) = 0 then (none, none)
      else if peek (scan_token delim (skip_delims delim p)).2 = 0 then
        (some (skip_delims delim p), none)
      else
        (some ((scan_token delim (skip_delims delim p)).1 ++
          0 :: (scan_token delim (skip_delims delim p)).2.tail),
         some (scan_token delim (skip_delims delim p)).2.tail) := rfl

theorem strtok_none_none (delim : List Nat) : strtok none none delim = (none, none) := rfl

theorem strtok_none_some (p delim : List Nat) :
    strtok (some p) none delim = strtok none (some p) delim := rfl

/-- The two calls of `strtok` in the `CREATE` branch when the text after the
command has no second part: the file name or the content is null. -/
theorem strtok_missing (last : Option (List Nat)) (n : Nat) (tok tl : List Nat)
    (htok : ∀ c ∈ tok, c ≠ 32 ∧ c ≠ 0) (htl : tl = [] ∨ tl = [32]) :
    (strtok last (some (List.replicate n 32 ++ tok ++ tl)) (str " ")).1 = none ∨
    (strtok (strtok last (some (List.replicate n 32 ++ tok ++ tl)) (str " ")).2 none
      (str "")).1 = none := by
  rw [str_space, str_empty, strtok_some_eq]
  by_cases hp : peek (List.replicate n 32 ++ tok ++ tl) = 0
  · left
    rw [if_pos hp]
  · rw [if_neg hp]
    have hskip : skip_delims [32] (List.replicate n 32 ++ tok ++ tl) =
        skip_delims [32] (tok ++ tl) := by
      rw [List.append_assoc, skip_delims_spaces]
    rw [hskip]
    cases tok with
    | nil =>
      left
      have h0 : skip_delims [32] ([] ++ tl) = [] := by
        rcases htl with rfl | rfl
        · rfl
        · simp [skip_delims, strchr_space]
      rw [h0, if_pos peek_nil]
    | cons c cs =>
      right
      have hc := htok c (List.mem_cons_self _ _)
      have hstart : skip_delims [32] (c :: cs ++ tl) = c :: cs ++ tl := by
        rw [List.cons_append]
        exact skip_delims_cons c _ hc.1
      have hscan : scan_token [32] (c :: cs ++ tl) = (c :: cs, tl) :=
        scan_token_space (c :: cs) tl htok (by
          rcases htl with rfl | rfl
          · exact Or.inl rfl
          · exact Or.inr ⟨[], rfl⟩)
      have hpeek : ¬ peek (c :: cs ++ tl) = 0 := by
        rw [List.cons_append, peek_cons]
        exact hc.2
      rw [hstart, if_neg hpeek, hscan]
      rcases htl with rfl | rfl
      · rw [if_pos peek_nil, strtok_none_none]
      · have h32 : ¬ peek [32] = 0 := by decide
        rw [if_neg h32]
        show (strtok (some []) none []).1 = none
        rfl

/-- The two calls of `strtok` in the `CREATE` branch when a file name, one
space and a non-empty content follow the command. -/
theorem strtok_create (last : Option (List Nat)) (n : Nat) (filename content : List Nat)
    (hne : filename ≠ []) (hfn : ∀ c ∈ filename, c ≠ 32 ∧ c ≠ 0) (hcontent : 0 < strlen content) :
    strtok last (some (List.replicate n 32 ++ filename ++ 32 :: content)) (str " ") =
      (some (filename ++ 0 :: content), some content) ∧
    strtok (some content) none (str "") = (some content, none) := by
  rw [str_space, str_empty]
  obtain ⟨c, cs, rfl⟩ : ∃ c cs, filename = c :: cs := by
    cases filename with
    | nil => exact absurd rfl hne
    | cons c cs => exact ⟨c, cs, rfl⟩
  have hc := hfn c (List.mem_cons_self _ _)
  have hpc : ¬ peek content = 0 := (strlen_pos_iff_peek content).mp hcontent
  constructor
  · have hp : ¬ peek (List.replicate n 32 ++ (c :: cs) ++ 32 :: content) = 0 := by
      cases n with
      | zero => simpa [peek] using hc.2
      | succ m => simp [List.replicate_succ, peek]
    have hskip : skip_delims [32] (List.replicate n 32 ++ (c :: cs) ++ 32 :: content) =
        c :: cs ++ 32 :: content := by
      rw [List.append_assoc, skip_delims_spaces, List.cons_append]
      exact skip_delims_cons c _ hc.1
    have hscan : scan_token [32] (c :: cs ++ 32 :: content) = (c :: cs, 32 :: content) :=
      scan_token_space (c :: cs) (32 :: content) hfn (Or.inr ⟨content, rfl⟩)
    have hpeek : ¬ peek (c :: cs ++ 32 :: content) = 0 := by
      rw [List.cons_append, peek_cons]
      exact hc.2
    have h32 : ¬ peek (32 :: content) = 0 := by
      rw [peek_cons]
      decide
    rw [strtok_some_eq, if_neg hp, hskip, if_neg hpeek, hscan, if_neg h32]
    rfl
  · rw [strtok_none_some, strtok_some_eq, if_neg hpc, skip_delims_no_delim, if_neg hpc,
      if_pos (scan_token_no_delim content)]


/-! ## The command dispatcher -/

theorem str_CREATE : str "CREATE " = [67, 82, 69, 65, 84, 69, 32] := by decide
theorem str_READ : str "READ " = [82, 69, 65, 68, 32] := by decide
theorem str_END : str "END" = [69, 78, 68] := by decide
theorem str_PAGE : str "PAGE" = [80, 65, 71, 69] := by decide

theorem cstr_MSG_USAGE : cstr MSG_USAGE = MSG_USAGE := by decide
theorem cstr_MSG_UNKNOWN : cstr MSG_UNKNOWN = MSG_UNKNOWN := by decide
theorem cstr_MSG_PROMPT : cstr MSG_PROMPT = MSG_PROMPT := by decide
theorem cstr_MSG_STOP : cstr MSG_STOP = MSG_STOP := by decide

/-- The routine `strncmp` returns `0` on a string that starts with the
characters of `p`. -/
theorem strncmp_of_starts (p rest : List Nat) (hp : ∀ c ∈ p, c ≠ 0) :
    strncmp (p ++ rest) p p.length = 0 := by
  induction p with
  | nil => rfl
  | cons c cs ih =>
    have hc := hp c (List.mem_cons_self _ _)
    rw [List.cons_append, List.length_cons, strncmp]
    simp only [peek_cons, ne_eq, not_true_eq_false, hc, or_self, if_false, List.tail_cons]
    exact ih (fun d hd => hp d (List.mem_cons_of_mem _ hd))

/-- The routine `strncmp` returns `0` only on a string that starts with the
characters of `p`. -/
theorem starts_of_strncmp (p input : List Nat) (hp : ∀ c ∈ p, c ≠ 0)
    (h : strncmp input p p.length = 0) : p <+: input := by
  induction p generalizing input with
  | nil => exact ⟨input, rfl⟩
  | cons c cs ih =>
    have hc := hp c (List.mem_cons_self _ _)
    rw [List.length_cons, strncmp] at h
    cases input with
    | nil =>
      simp only [peek_nil, peek_cons] at h
      rw [if_pos (Or.inr (Or.inl trivial))] at h
      omega
    | cons d ds =>
      simp only [peek_cons, List.tail_cons] at h
      by_cases hdc : d = c
      · subst hdc
        rw [if_neg (by simp [hc])] at h
        obtain ⟨r, hr⟩ := ih ds (fun e he => hp e (List.mem_cons_of_mem _ he)) h
        exact ⟨r, by rw [List.cons_append, hr]⟩
      · rw [if_pos (Or.inl hdc)] at h
        omega

theorem create_file_name_congr (s : FS) (n1 n2 data : List Nat) (h : cstr n1 = cstr n2) :
    create_file s n1 data = create_file s n2 data := by
  unfold create_file strcpy strlen
  rw [h]

theorem user_input_not_end (env : Env) (fuel : Nat) (k : Kernel) (input : List Nat)
    (h : strcmp input (str "END") ≠ 0) :
    user_input env fuel k input =
      match dispatch env fuel k input with
      | .ok k1 => .ok { k1 with fs := kprint k1.fs MSG_PROMPT }
      | .fault => .fault
      | .timeout => .timeout := by
  unfold user_input
  rw [if_neg h]

/-- The branch taken by a line that starts with `CREATE `. -/
theorem dispatch_create (env : Env) (fuel : Nat) (k : Kernel) (rest : List Nat) :
    strcmp (str "CREATE " ++ rest) (str "END") ≠ 0 ∧
    dispatch env fuel k (str "CREATE " ++ rest) =
      match (strtok k.last (some rest) (str " ")).1,
        (strtok (strtok k.last (some rest) (str " ")).2 none (str "")).1 with
      | some filename, some data =>
        (create_file k.fs filename data).then (fun s =>
          { k with fs := s, last := (strtok (strtok k.last (some rest) (str " ")).2 none
            (str "")).2 })
      | _, _ => .ok { k with
          fs := kprint k.fs MSG_USAGE
          last := (strtok (strtok k.last (some rest) (str " ")).2 none (str "")).2 } := by
  have h1 : strcmp (str "CREATE " ++ rest) (str "END") ≠ 0 := by
    rw [str_CREATE, str_END]
    simp [strcmp]
  have h2 : strcmp (str "CREATE " ++ rest) (str "PAGE") ≠ 0 := by
    rw [str_CREATE, str_PAGE]
    simp [strcmp]
  have h3 : strncmp (str "CREATE " ++ rest) (str "CREATE ") 7 = 0 :=
    strncmp_of_starts (str "CREATE ") rest (by decide)
  have h4 : (str "CREATE " ++ rest).drop 7 = rest := by
    rw [str_CREATE]
    rfl
  refine ⟨h1, ?_⟩
  unfold dispatch
  rw [if_neg h2, if_pos h3, h4]

/-- C12: for every line made of `CREATE `, any number of spaces, a token
without space (possibly none) and then nothing or exactly one space,
`user_input` prints the usage message and the prompt, and the block store,
the allocation table, the directory and `file_count` are unchanged (so are
the page allocator and the halted flag). -/
theorem user_input_create_usage (env : Env) (fuel : Nat) (k : Kernel) (n : Nat)
    (tok tl : List Nat) (htok : ∀ c ∈ tok, c ≠ 32 ∧ c ≠ 0) (htl : tl = [] ∨ tl = [32]) :
    ∃ k1, user_input env fuel k (str "CREATE " ++ (List.replicate n 32 ++ tok ++ tl)) = .ok k1 ∧
      k1.fs = { k.fs with screen := k.fs.screen ++ MSG_USAGE ++ MSG_PROMPT } ∧
      k1.mem = k.mem ∧ k1.halted = k.halted := by
  obtain ⟨hend, hd⟩ := dispatch_create env fuel k (List.replicate n 32 ++ tok ++ tl)
  rw [user_input_not_end env fuel k _ hend, hd]
  have hfs : kprint (kprint k.fs MSG_USAGE) MSG_PROMPT =
      { k.fs with screen := k.fs.screen ++ MSG_USAGE ++ MSG_PROMPT } := by
    simp [kprint, cstr_MSG_USAGE, cstr_MSG_PROMPT]
  rcases strtok_missing k.last n tok tl htok htl with h | h
  · rw [h]
    exact ⟨_, rfl, hfs, rfl, rfl⟩
  · rw [h]
    cases (strtok k.last (some (List.replicate n 32 ++ tok ++ tl)) (str " ")).1 with
    | none => exact ⟨_, rfl, hfs, rfl, rfl⟩
    | some f => exact ⟨_, rfl, hfs, rfl, rfl⟩

/-- C13: for every non-empty file name without space, every non-empty
content, any number of spaces before the name and every value of the static
`last` of `strtok`, `user_input` on `CREATE `, the spaces, the name, one space
and the content does what `create_file(name, content)` does and then prints
the prompt; the content is passed as it stands. -/
theorem user_input_create (env : Env) (fuel : Nat) (k : Kernel) (n : Nat)
    (filename content : List Nat) (hne : filename ≠ [])
    (hfn : ∀ c ∈ filename, c ≠ 32 ∧ c ≠ 0) (hcontent : 0 < strlen content) :
    user_input env fuel k (str "CREATE " ++ (List.replicate n 32 ++ filename ++ 32 :: content)) =
      (create_file k.fs filename content).then (fun s =>
        { k with fs := kprint s MSG_PROMPT, last := none }) := by
  obtain ⟨hend, hd⟩ :=
    dispatch_create env fuel k (List.replicate n 32 ++ filename ++ 32 :: content)
  obtain ⟨h1, h2⟩ := strtok_create k.last n filename content hne hfn hcontent
  rw [user_input_not_end env fuel k _ hend, hd, h1]
  simp only
  rw [h2]
  simp only
  have hname : cstr (filename ++ 0 :: content) = cstr filename := by
    have := cstr_append_zero filename content
    rw [cstr_of_no_nul filename (fun b hb => (hfn b hb).2)] at this
    rw [this, cstr_of_no_nul filename (fun b hb => (hfn b hb).2)]
  rw [create_file_name_congr k.fs _ filename content hname]
  cases create_file k.fs filename content <;> rfl

/-- C14: for every line that is not exactly `END`, not exactly `PAGE`, and
does not start with `CREATE ` or `READ `, `user_input` prints the
unknown-command message and the prompt and changes nothing else. -/
theorem user_input_unknown (env : Env) (fuel : Nat) (k : Kernel) (input : List Nat)
    (hend : cstr input ≠ str "END") (hpage : cstr input ≠ str "PAGE")
    (hcreate : ¬ str "CREATE " <+: input) (hread : ¬ str "READ " <+: input) :
    user_input env fuel k input =
      .ok { k with fs := { k.fs with screen := k.fs.screen ++ MSG_UNKNOWN ++ MSG_PROMPT } } := by
  have h1 : strcmp input (str "END") ≠ 0 := by
    intro h
    apply hend
    rw [(strcmp_eq_zero_iff _ _).mp h]
    decide
  have h2 : strcmp input (str "PAGE") ≠ 0 := by
    intro h
    apply hpage
    rw [(strcmp_eq_zero_iff _ _).mp h]
    decide
  have h3 : strncmp input (str "CREATE ") 7 ≠ 0 := fun h =>
    hcreate (starts_of_strncmp (str "CREATE ") input (by decide) h)
  have h4 : strncmp input (str "READ ") 5 ≠ 0 := fun h =>
    hread (starts_of_strncmp (str "READ ") input (by decide) h)
  rw [user_input_not_end env fuel k _ h1]
  unfold dispatch
  rw [if_neg h2, if_neg h3, if_neg h4]
  simp [kprint, cstr_MSG_UNKNOWN, cstr_MSG_PROMPT]


/-! ## The halt -/

theorem run_halted (env : Env) (fuel : Nat) (k : Kernel) (lines : List (List Nat))
    (h : k.halted = true) : run env fuel k lines = .ok k := by
  cases lines with
  | nil => rfl
  | cons l ls => simp [run, h]

theorem user_input_end (env : Env) (fuel : Nat) (k : Kernel) :
    user_input env fuel k (str "END") =
      .ok { k with fs := { k.fs with screen := k.fs.screen ++ MSG_STOP }, halted := true } := by
  have h : strcmp (str "END") (str "END") = 0 := by decide
  unfold user_input
  rw [if_pos h]
  simp [hlt, kprint, cstr_MSG_STOP]

/-- C15: the line `END` prints the stop message and halts the kernel, and in
every run the lines given after `END` change nothing and print nothing: the
run ends in the state in which `END` left it. -/
theorem end_halts (env : Env) (fuel : Nat) (k : Kernel) (before later : List (List Nat)) :
    user_input env fuel k (str "END") =
      .ok { k with fs := { k.fs with screen := k.fs.screen ++ MSG_STOP }, halted := true } ∧
    run env fuel k (before ++ str "END" :: later) = run env fuel k (before ++ [str "END"]) := by
  refine ⟨user_input_end env fuel k, ?_⟩
  induction before generalizing k with
  | nil =>
    simp only [List.nil_append, run]
    by_cases hh : k.halted = true
    · simp [hh]
    · simp only [hh, Bool.false_eq_true, if_false, user_input_end]
      rw [run_halted env fuel _ later rfl]
  | cons l ls ih =>
    simp only [List.cons_append, run]
    by_cases hh : k.halted = true
    · simp [hh]
    · simp only [hh, Bool.false_eq_true, if_false]
      cases user_input env fuel k l with
      | ok k1 => exact ih k1
      | fault => rfl
      | timeout => rfl

/-! ## A read that never returns -/

/-- In a table without a `-1` the read loop never meets the end marker. -/
theorem read_chain_no_end (fat : List Int) (disk : List Nat) (fuel : Nat) (block : Int)
    (s : FS) (hlen : NUM_BLOCKS ≤ fat.length) (hall : ∀ v ∈ fat, 0 ≤ v ∧ v < NUM_BLOCKS)
    (hb : 0 ≤ block ∧ block < NUM_BLOCKS) : read_chain fat disk fuel block s = .timeout := by
  induction fuel generalizing block s with
  | zero =>
    rw [read_chain_zero, if_neg (by omega)]
  | succ fuel ih =>
    have hlt : block.toNat < fat.length := by omega
    rw [read_chain_succ, if_neg (by omega), if_pos hb, List.getElem?_eq_getElem hlt]
    exact ih _ _ (hall _ (List.getElem_mem hlt))

set_option maxRecDepth 100000 in
theorem before_failed_create_ok : create_all fresh ops_fill = .ok before_failed_create := by
  decide!

set_option maxRecDepth 100000 in
theorem failed_create_ok :
    create_file before_failed_create (str "b") payload257 = .ok after_failed_create := by
  decide!

set_option maxRecDepth 100000 in
theorem after_failed_create_facts :
    after_failed_create.screen = before_failed_create.screen ++ MSG_NO_SPACE ∧
    after_failed_create.file_count = 8 ∧ after_failed_create.files.length = 10 ∧
    after_failed_create.files[7]? = some ⟨strcpy File.zero.name (str "a"), 28, 1⟩ ∧
    (∀ f ∈ after_failed_create.files.take 7, cstr f.name ≠ cstr (str "a")) ∧
    after_failed_create.fat.length = NUM_BLOCKS ∧
    (∀ v ∈ after_failed_create.fat, 0 ≤ v ∧ v < NUM_BLOCKS) ∧
    after_failed_create.fat[28]? = some 29 ∧ after_failed_create.fat[31]? = some 31 ∧
    find_free_block before_failed_create.fat = 28 := by
  decide!

theorem reachable_before_failed_create : Reachable before_failed_create :=
  reachable_create_all fresh before_failed_create ops_fill reachable_fresh
    before_failed_create_ok

/-- C16 (failing input): after the creations `ops_fill` on the fresh
filesystem (seven files of 257 bytes, then the one-byte file `a`) and a
creation of a 257-byte file that fails with the out-of-space error,
`read_file("a")` does not return, whatever the fuel: the chain of `a` runs
from block 28 to block 31, which is linked to itself. -/
theorem read_file_never_returns :
    Reachable after_failed_create ∧
    create_file before_failed_create (str "b") payload257 = .ok after_failed_create ∧
    after_failed_create.screen = before_failed_create.screen ++ MSG_NO_SPACE ∧
    after_failed_create.fat[31]? = some 31 ∧
    ∀ fuel, read_file fuel after_failed_create (str "a") = .timeout := by
  obtain ⟨hscreen, hcount, hlen, hf, hnames, hfatlen, hfat, _, h31, _⟩ :=
    after_failed_create_facts
  refine ⟨Reachable.create _ _ _ _ reachable_before_failed_create failed_create_ok,
    failed_create_ok, hscreen, h31, ?_⟩
  intro fuel
  have hdir : after_failed_create.file_count ≤ after_failed_create.files.length := by
    rw [hcount, hlen]
    decide
  have hi : 7 < after_failed_create.file_count := by
    rw [hcount]
    decide
  have hfirst : ∀ j g, j < 7 → after_failed_create.files[j]? = some g →
      cstr g.name ≠ cstr (str "a") :=
    forall_index_of_forall_take _ _ (fun (f : File) => cstr f.name ≠ cstr (str "a")) hnames
  rw [read_file_first_match fuel after_failed_create (str "a") 7
    ⟨strcpy File.zero.name (str "a"), 28, 1⟩ hdir hi hf (by decide) hfirst]
  unfold read_entry
  rw [read_chain_no_end after_failed_create.fat after_failed_create.disk fuel 28 _
    (le_of_eq hfatlen.symm) hfat (by decide)]

/-- C18 (failing input): in the state after the creations `ops_fill`, the
creation of a 257-byte file fails with the out-of-space error; block 28, the
first block it took, is left in use, but it is the start block of the
directory entry `a`. -/
theorem leaked_block_on_chain :
    Reachable before_failed_create ∧
    create_file before_failed_create (str "b") payload257 = .ok after_failed_create ∧
    after_failed_create.screen = before_failed_create.screen ++ MSG_NO_SPACE ∧
    find_free_block before_failed_create.fat = 28 ∧
    after_failed_create.fat[28]? = some 29 ∧
    7 < after_failed_create.file_count ∧
    after_failed_create.files[7]? = some ⟨strcpy File.zero.name (str "a"), 28, 1⟩ := by
  obtain ⟨hscreen, hcount, _, hf, _, _, _, h28, _, hfind⟩ := after_failed_create_facts
  refine ⟨reachable_before_failed_create, failed_create_ok, hscreen, hfind, h28, ?_, hf⟩
  rw [hcount]
  decide

/-- Instance of C11: a second file created after a first one. -/
theorem directory_append_only_witness :
    create_file (create_file fresh (str "a") (str "x")).get (str "b") (str "y") =
      .ok (create_all fresh [(str "a", str "x"), (str "b", str "y")]).get ∧
    (create_file fresh (str "a") (str "x")).get.file_count ≤
      (create_all fresh [(str "a", str "x"), (str "b", str "y")]).get.file_count ∧
    ∀ i, i < (create_file fresh (str "a") (str "x")).get.file_count →
      (create_all fresh [(str "a", str "x"), (str "b", str "y")]).get.files[i]? =
        (create_file fresh (str "a") (str "x")).get.files[i]? :=
  ⟨by decide!,
    directory_append_only.1 (create_file fresh (str "a") (str "x")).get
      (create_all fresh [(str "a", str "x"), (str "b", str "y")]).get (str "b") (str "y")
      (by decide!)⟩

/-- Instance of C12: the line `CREATE x`. -/
theorem user_input_create_usage_witness :
    str "CREATE " ++ (List.replicate 0 32 ++ str "x" ++ []) = str "CREATE x" ∧
    (∀ c ∈ str "x", c ≠ 32 ∧ c ≠ 0) ∧
    ∃ k1, user_input Env.sample 0 Kernel.boot
        (str "CREATE " ++ (List.replicate 0 32 ++ str "x" ++ [])) = .ok k1 ∧
      k1.fs = { Kernel.boot.fs with
        screen := Kernel.boot.fs.screen ++ MSG_USAGE ++ MSG_PROMPT } ∧
      k1.mem = Kernel.boot.mem ∧ k1.halted = Kernel.boot.halted :=
  ⟨by decide, by decide,
    user_input_create_usage Env.sample 0 Kernel.boot 0 (str "x") [] (by decide) (Or.inl rfl)⟩

/-- Instance of C13: the line `CREATE  a hello world`, with a stale `last`. -/
theorem user_input_create_witness :
    str "CREATE " ++ (List.replicate 1 32 ++ str "a" ++ 32 :: str "hello world") =
      str "CREATE  a hello world" ∧
    0 < strlen (str "hello world") ∧
    user_input Env.sample 0 { Kernel.boot with last := some (str "stale") }
        (str "CREATE " ++ (List.replicate 1 32 ++ str "a" ++ 32 :: str "hello world")) =
      (create_file fresh (str "a") (str "hello world")).then (fun s =>
        { fs := kprint s MSG_PROMPT, last := none, mem := 0, halted := false }) :=
  ⟨by decide, by decide,
    user_input_create Env.sample 0 { Kernel.boot with last := some (str "stale") } 1
      (str "a") (str "hello world") (by decide) (by decide) (by decide)⟩

/-- Instance of C14: the line `CREATE`, without the space. -/
theorem user_input_unknown_witness :
    cstr (str "CREATE") ≠ str "END" ∧ ¬ str "CREATE " <+: str "CREATE" ∧
    user_input Env.sample 0 Kernel.boot (str "CREATE") =
      .ok { Kernel.boot with
        fs := { Kernel.boot.fs with
          screen := Kernel.boot.fs.screen ++ MSG_UNKNOWN ++ MSG_PROMPT } } :=
  ⟨by decide, by decide,
    user_input_unknown Env.sample 0 Kernel.boot (str "CREATE") (by decide) (by decide)
      (by decide) (by decide)⟩

/-- Instance of C20: the state after a creation that failed for lack of
space. -/
theorem reachable_indices_in_range_witness :
    Reachable after_failed_create ∧
    ∀ (fuel : Nat) (name : List Nat), read_file fuel after_failed_create name ≠ .fault :=
  ⟨Reachable.create _ _ _ _ reachable_before_failed_create failed_create_ok,
    (reachable_indices_in_range after_failed_create
      (Reachable.create _ _ _ _ reachable_before_failed_create failed_create_ok)).2.2.1⟩


/-! ## The next creation after a successful one -/

set_option maxRecDepth 100000 in
/-- C17 (counterexample): the tenth creation of a one-byte file on the fresh
filesystem succeeds and leaves block 0, the only block of its chain, marked
`-1`, and `find_free_block` returns 0; but the next `create_file`, of the
non-empty content `z`, prints the file-limit error because the directory is
full: the state is unchanged but for the screen and block 0 does not hold
bytes of `z`. -/
theorem next_create_at_limit_keeps_block :
    Reachable (create_all fresh ops9).get ∧
    create_file (create_all fresh ops9).get (str "f") (str "x") =
      .ok (create_all fresh ops10).get ∧
    (create_all fresh ops10).get.screen = (create_all fresh ops9).get.screen ++ MSG_CREATED ∧
    (create_all fresh ops10).get.files[9]? = some ⟨strcpy File.zero.name (str "f"), 0, 1⟩ ∧
    chain (create_all fresh ops10).get.fat NUM_BLOCKS 0 = some [0] ∧
    find_free_block (create_all fresh ops10).get.fat = 0 ∧
    0 < strlen (str "z") ∧
    create_file (create_all fresh ops10).get (str "k") (str "z") =
      .ok { (create_all fresh ops10).get with
        screen := (create_all fresh ops10).get.screen ++ MSG_FILE_LIMIT } ∧
    block_bytes (create_all fresh ops10).get.disk 0 ≠ strncpy (str "z") BLOCK_SIZE := by
  refine ⟨reachable_create_all fresh _ ops9 reachable_fresh ?_, ?_, ?_, ?_, ?_, ?_, ?_, ?_, ?_⟩
  · decide
  · decide
  · decide
  · decide
  · decide
  · decide
  · decide
  · decide
  · decide

set_option maxRecDepth 100000 in
/-- Instance of C17: a 40-byte file created on the fresh filesystem, then a
five-byte file. -/
theorem create_file_last_block_free_witness :
    create_file fresh (str "a") payload40 = .ok (create_file fresh (str "a") payload40).get ∧
    ∃ (f : File) (bs : List Nat) (b : Nat),
      (create_file fresh (str "a") payload40).get.files[fresh.file_count]? = some f ∧
      chain (create_file fresh (str "a") payload40).get.fat NUM_BLOCKS f.start_block =
        some (bs ++ [b]) ∧
      (create_file fresh (str "a") payload40).get.fat[b]? = some (-1) ∧
      find_free_block (create_file fresh (str "a") payload40).get.fat = (b : Int) ∧
      ∃ s2 : FS,
        create_file (create_file fresh (str "a") payload40).get (str "b") (str "hello") =
          .ok s2 ∧
        block_bytes s2.disk b =
          strncpy ((str "hello").drop
            (if blocks_needed (strlen (str "hello")) = 1 then 0 else BLOCK_SIZE)) BLOCK_SIZE :=
  ⟨by decide,
    match create_file_last_block_free fresh (create_file fresh (str "a") payload40).get
      (str "a") payload40 reachable_fresh (by decide) (by decide) with
    | ⟨f, bs, b, h1, h2, h3, h4, hnext⟩ =>
      match ((hnext (str "b") (str "hello") (by decide)).1 (by decide)).2 (by decide)
        (by decide) with
      | ⟨s2, hs2⟩ =>
        ⟨f, bs, b, h1, h2, h3, h4, s2, hs2,
          (((hnext (str "b") (str "hello") (by decide)).1 (by decide)).1 s2 hs2).2.1⟩⟩

/-! ## Empty content does not reach `create_file` -/

end MBSOS
